import Mathlib

/-
Verification of the session-and-event-resumability subsystem of
jupyter-collaboration-mcp.

The development shallowly embeds two modules:
  - jupyter_collaboration_mcp/tornado_event_store.py   (TornadoEventStore)
  - jupyter_collaboration_mcp/tornado_session_manager.py (TornadoSessionManager)

Python dicts preserve insertion order; they are modelled as association
lists with unique keys.  Assigning an existing key keeps its position,
assigning a new key appends at the end, and deletion removes the key.
uuid4 event ids are modelled by a fresh-id counter (their only relevant
property is global uniqueness).  IOLoop.current().time() readings are
external inputs, passed to each operation as an explicit integer
parameter.  Functions that can raise in Python are modelled with an
explicit error outcome; all model functions are total, so a path that
returns normally in the model corresponds to a Python path that does not
raise.
-/

/-! # Association-list model of Python dict -/

def alookup {κ β : Type} [DecidableEq κ] (l : List (κ × β)) (k : κ) : Option β :=
  match l with
  | [] => none
  | (k1, v) :: rest => if k1 = k then some v else alookup rest k

/-- Python dict assignment: update in place when the key exists, append
at the end otherwise. -/
def aset {κ β : Type} [DecidableEq κ] (l : List (κ × β)) (k : κ) (v : β) :
    List (κ × β) :=
  match l with
  | [] => [(k, v)]
  | (k1, v1) :: rest => if k1 = k then (k1, v) :: rest else (k1, v1) :: aset rest k v

/-- Python dict deletion (del / pop): removes the first pair carrying the
key; keys are unique in every reachable state, so this is dict removal. -/
def aerase {κ β : Type} [DecidableEq κ] (l : List (κ × β)) (k : κ) : List (κ × β) :=
  match l with
  | [] => []
  | (k1, v1) :: rest => if k1 = k then rest else (k1, v1) :: aerase rest k

def akeys {κ β : Type} (l : List (κ × β)) : List κ := l.map Prod.fst

/-- One comparison step of Python min(keys, key=f): keep the earlier
element on ties, replace it on a strictly smaller key. -/
def minStep {κ : Type} (f : κ → Int) (acc : Option κ) (x : κ) : Option κ :=
  match acc with
  | none => some x
  | some m => if f x < f m then some x else some m

/-- Python min(keys, key=f): first element attaining the minimal value of
f, none on the empty list (where Python raises ValueError). -/
def minByVal {κ : Type} (l : List κ) (f : κ → Int) : Option κ :=
  l.foldl (minStep f) none

/-! # Event store data model (tornado_event_store.py) -/

/-- TornadoEventEntry: an entry in the event store.  The opaque JSON
payload is modelled by the type parameter of the store; claim theorems
instantiate it with Nat. -/
structure EventEntry (α : Type) where
  event_id : Nat
  stream_id : String
  message : α
  timestamp : Int
deriving DecidableEq, Repr

/-- TornadoEventMessage: the projection of an entry handed to callers. -/
structure EventMsg (α : Type) where
  event_id : Nat
  stream_id : String
  message : α
deriving DecidableEq, Repr

def toMsg {α : Type} (e : EventEntry α) : EventMsg α :=
  ⟨e.event_id, e.stream_id, e.message⟩

/-- The per-stream metadata dict.  store_event and create_stream populate
exactly these three keys (the optional metadata merge of create_stream is
unused by every claim, which all pass metadata=None). -/
structure StreamMeta where
  created_at : Int
  last_activity : Int
  event_count : Nat
deriving DecidableEq, Repr

/-- TornadoEventStore state: max_events_per_stream, max_streams, the
streams dict (stream id to deque of entries), the global event index,
the stream metadata dict, and the fresh-id counter standing for uuid4. -/
structure EvStore (α : Type) where
  maxE : Nat
  maxS : Nat
  streams : List (String × List (EventEntry α))
  index : List (Nat × EventEntry α)
  meta : List (String × StreamMeta)
  nextId : Nat
deriving DecidableEq, Repr

def initStore (α : Type) (maxE maxS : Nat) : EvStore α :=
  ⟨maxE, maxS, [], [], [], 0⟩

/-- Python exceptions surfaced by the store. -/
inductive PyError where
  | valueError
  | indexError
deriving DecidableEq, Repr

/-- metadata.get of last_activity with default 0, as used by the
LRU victim selection in store_event. -/
def laOf {α : Type} (st : EvStore α) (sid : String) : Int :=
  match alookup st.meta sid with
  | some m => m.last_activity
  | none => 0

/-- Internal _remove_stream: pop every event of the stream from the
global index, then delete the stream and its metadata.  Unknown stream:
state unchanged (returns False in Python). -/
def removeStreamState {α : Type} (st : EvStore α) (sid : String) : EvStore α :=
  match alookup st.streams sid with
  | none => st
  | some es =>
    { st with
      index := es.foldl (fun ix e => aerase ix e.event_id) st.index
      streams := aerase st.streams sid
      meta := aerase st.meta sid }

/-- remove_stream, also returning the removed flag. -/
def removeStream {α : Type} (st : EvStore α) (sid : String) : EvStore α × Bool :=
  (removeStreamState st sid, (alookup st.streams sid).isSome)

/-- The tail of store_event after the global-cap check: initialize the
stream if needed, generate the entry, evict the oldest record from the
index when the deque is full (stream[0] raises IndexError on an empty
deque, reachable only with max_events_per_stream = 0), append, index,
and update the metadata. -/
def storeEventBody {α : Type} (st : EvStore α) (sid : String) (msg : α)
    (now : Int) : EvStore α × Except PyError Nat :=
  let st1 :=
    if (alookup st.streams sid).isNone then
      { st with
        streams := aset st.streams sid []
        meta := aset st.meta sid ⟨now, now, 0⟩ }
    else st
  let es := (alookup st1.streams sid).getD []
  if es.length = st1.maxE then
    match es with
    | [] => (st1, Except.error PyError.indexError)
    | oldest :: rest =>
      let eid := st1.nextId
      let entry : EventEntry α := ⟨eid, sid, msg, now⟩
      let m := (alookup st1.meta sid).getD ⟨now, now, 0⟩
      ({ st1 with
         streams := aset st1.streams sid (rest ++ [entry])
         index := aset (aerase st1.index oldest.event_id) eid entry
         meta := aset st1.meta sid
           { m with last_activity := now, event_count := m.event_count + 1 }
         nextId := eid + 1 }, Except.ok eid)
  else
    let eid := st1.nextId
    let entry : EventEntry α := ⟨eid, sid, msg, now⟩
    let m := (alookup st1.meta sid).getD ⟨now, now, 0⟩
    ({ st1 with
       streams := aset st1.streams sid (es ++ [entry])
       index := aset st1.index eid entry
       meta := aset st1.meta sid
         { m with last_activity := now, event_count := m.event_count + 1 }
       nextId := eid + 1 }, Except.ok eid)

/-- store_event.  When the store already tracks max_streams streams and
the stream id is new, the least-recently-active stream is removed first;
min over an empty dict raises ValueError (reachable only with
max_streams = 0 and an empty store). -/
def storeEvent {α : Type} (st : EvStore α) (sid : String) (msg : α)
    (now : Int) : EvStore α × Except PyError Nat :=
  if st.maxS ≤ st.streams.length ∧ (alookup st.streams sid).isNone then
    match minByVal (akeys st.streams) (laOf st) with
    | none => (st, Except.error PyError.valueError)
    | some victim => storeEventBody (removeStreamState st victim) sid msg now
  else storeEventBody st sid msg now

/-- get_event: point lookup through the global index. -/
def getEvent {α : Type} (st : EvStore α) (eid : Nat) : Option (EventMsg α) :=
  (alookup st.index eid).map toMsg

/-- Python tail slice l[-n:] for an Int n, as executed by
get_stream_events: for n >= 1 the last n elements, for n = 0 the whole
list, for negative n the slice l[(-n):]. -/
def pyTailSlice {β : Type} (l : List β) (n : Int) : List β :=
  let len : Int := l.length
  let i : Int := -n
  let start : Int := if i < 0 then max (len + i) 0 else min i len
  l.drop start.toNat

/-- get_stream_events: all events of the stream in insertion order,
restricted by events[-limit:] when a limit is given. -/
def getStreamEvents {α : Type} (st : EvStore α) (sid : String)
    (limit : Option Int) : List (EventMsg α) :=
  match alookup st.streams sid with
  | none => []
  | some es =>
    let evs := es.map toMsg
    match limit with
    | none => evs
    | some n => pyTailSlice evs n

/-- The scanning loop of replay_events_after: find the first entry with
the given id, emit every later entry in order, remember the id of the
last one emitted; emit nothing when the id does not occur. -/
def replayScan {α : Type} (target : Nat) (l : List (EventEntry α)) :
    List (EventMsg α) × Option Nat :=
  match l with
  | [] => ([], none)
  | e :: rest =>
    if e.event_id = target then
      (rest.map toMsg, (rest.map EventEntry.event_id).getLast?)
    else replayScan target rest

/-- replay_events_after: resolve the cursor through the global index,
then scan the owning stream.  The emitted list is the sequence of
send_callback invocations in order; the second component is the returned
last-sent id.  Every branch returns normally (the unknown-cursor branch
logs a warning and returns None in Python). -/
def replayEventsAfter {α : Type} (st : EvStore α) (lastId : Nat) :
    List (EventMsg α) × Option Nat :=
  match alookup st.index lastId with
  | none => ([], none)
  | some entry =>
    match alookup st.streams entry.stream_id with
    | none => ([], none)
    | some es => replayScan lastId es

/-- prune_old_streams: collect the streams whose last_activity is older
than max_age, then remove each, counting successful removals. -/
def pruneOldStreams {α : Type} (st : EvStore α) (maxAge : Int) (now : Int) :
    EvStore α × Nat :=
  let toRemove := (st.meta.filter
    (fun p => decide (maxAge < now - p.2.last_activity))).map Prod.fst
  toRemove.foldl (fun acc sid =>
    let present := (alookup acc.1.streams sid).isSome
    (removeStreamState acc.1 sid, acc.2 + (if present then 1 else 0))) (st, 0)

/-- create_stream with an explicit id and metadata=None (the only form
any claim exercises): ValueError when the stream exists, otherwise a new
empty stream with fresh metadata. -/
def createStream {α : Type} (st : EvStore α) (sid : String) (now : Int) :
    EvStore α × Except PyError String :=
  if (alookup st.streams sid).isSome then (st, Except.error PyError.valueError)
  else
    ({ st with
       streams := aset st.streams sid []
       meta := aset st.meta sid ⟨now, now, 0⟩ }, Except.ok sid)

/-! # Operation sequences over the store -/

inductive EvOp (α : Type) where
  | store (sid : String) (msg : α) (now : Int)
  | remove (sid : String)
  | prune (maxAge : Int) (now : Int)
  | create (sid : String) (now : Int)
deriving DecidableEq, Repr

def applyOp {α : Type} (st : EvStore α) : EvOp α → EvStore α
  | EvOp.store sid msg now => (storeEvent st sid msg now).1
  | EvOp.remove sid => (removeStream st sid).1
  | EvOp.prune a now => (pruneOldStreams st a now).1
  | EvOp.create sid now => (createStream st sid now).1

def runOps {α : Type} (st : EvStore α) (ops : List (EvOp α)) : EvStore α :=
  ops.foldl applyOp st

/-- The store invariant: unique dict keys, streams and metadata share
their key set, every stream respects the capacity, entries carry their
stream id and a consumed counter value, per-stream event ids are
distinct, and the global index holds exactly the union of the live
streams (complete and sound). -/
def StoreInv {α : Type} [DecidableEq α] (st : EvStore α) : Prop :=
  (akeys st.streams).Nodup ∧
  (akeys st.meta).Nodup ∧
  (akeys st.index).Nodup ∧
  (∀ p ∈ st.streams, p.1 ∈ akeys st.meta) ∧
  (∀ p ∈ st.meta, p.1 ∈ akeys st.streams) ∧
  (∀ p ∈ st.streams, p.2.length ≤ st.maxE) ∧
  (∀ p ∈ st.streams, ∀ e ∈ p.2, e.stream_id = p.1) ∧
  (∀ p ∈ st.streams, ∀ e ∈ p.2, e.event_id < st.nextId) ∧
  (∀ p ∈ st.streams, (p.2.map EventEntry.event_id).Nodup) ∧
  (∀ p ∈ st.streams, ∀ e ∈ p.2, alookup st.index e.event_id = some e) ∧
  (∀ q ∈ st.index, ∃ p ∈ st.streams, q.2 ∈ p.2 ∧ q.2.event_id = q.1)

instance {α : Type} [DecidableEq α] (st : EvStore α) : Decidable (StoreInv st) := by
  unfold StoreInv; exact inferInstance

/-! # Session manager data model (tornado_session_manager.py) -/

/-- A session record in the _sessions dict.  _get_or_create_session_id
registers records holding only created_at (no status key), start_session
registers active records; end_session sets status ended and ended_at.
The absent status key is modelled with none. -/
structure SessionRecord where
  status : Option String
  created_at : Int
  ended_at : Option Int
deriving DecidableEq, Repr

/-- Session-manager state: the _sessions dict and the key set of the
_sse_handlers dict (handler objects themselves are external I/O
resources; only their presence is observable to the registry logic). -/
structure SMState where
  sessions : List (String × SessionRecord)
  sse : List String
deriving DecidableEq, Repr

/-- Registering an SSE handler for a session id (dict assignment on
_sse_handlers, key-set view). -/
def addSse (l : List String) (sid : String) : List String :=
  if sid ∈ l then l else l ++ [sid]

/-- start_session with an explicit id: registers an active record. -/
def startSession (st : SMState) (sid : String) (now : Int) : SMState :=
  { st with sessions := aset st.sessions sid ⟨some "active", now, none⟩ }

/-- end_session: when the session exists, close and drop its SSE handler,
set status to ended and overwrite ended_at with the current time; when it
does not exist, do nothing. -/
def endSession (st : SMState) (sid : String) (now : Int) : SMState :=
  match alookup st.sessions sid with
  | none => st
  | some r =>
    { sessions := aset st.sessions sid
        { r with status := some "ended", ended_at := some now }
      sse := st.sse.filter (fun x => x ≠ sid) }

/-- _get_or_create_session_id: a non-empty presented header value is
returned verbatim with no registry access; an absent or empty header
mints a fresh id and registers a record holding only created_at. -/
def getOrCreateSessionId (st : SMState) (header : Option String)
    (freshId : String) (now : Int) : String × SMState :=
  match header with
  | none =>
    (freshId, { st with sessions := aset st.sessions freshId ⟨none, now, none⟩ })
  | some s =>
    if s = "" then
      (freshId, { st with sessions := aset st.sessions freshId ⟨none, now, none⟩ })
    else (s, st)

/-- _handle_delete: a truthy header value ends that session and reports
success with the default 200 status; an absent or empty header yields
404 Session not found.  The registry is never consulted. -/
def handleDelete (st : SMState) (header : Option String) (now : Int) :
    SMState × Nat × String :=
  match header with
  | none => (st, 404, "Session not found")
  | some s =>
    if s = "" then (st, 404, "Session not found")
    else (endSession st s now, 200, "Session ended")

/-! # POST dispatch model (_handle_post and helpers) -/

/-- The inbound JSON-RPC body, as read by dict.get: method, the id field
(absent and null are indistinguishable through .get), and the tool name
under params.  Arguments are opaque and elided. -/
structure RpcRequest where
  rmethod : Option String
  rid : Option Nat
  toolName : Option String
deriving DecidableEq, Repr

/-- An outbound JSON-RPC reply value (result payloads are opaque). -/
inductive RpcReply where
  | emptyObj
  | resultEnvelope (id : Option Nat)
  | errorEnvelope (id : Nat) (code : Int) (msg : String)
deriving DecidableEq, Repr

/-- How _handle_post terminates the request: a JSON body, an SSE event
followed by an empty finish, an empty-JSON-object body, or a bare
finish. -/
inductive PostResult where
  | jsonBody (r : RpcReply)
  | sseEvent (eventType : String) (r : RpcReply)
  | emptyJsonBody
  | plainFinish
deriving DecidableEq, Repr

/-- Whether a JSONRPCError envelope is emitted on any channel. -/
def isErrorEnvelope : PostResult → Bool
  | PostResult.jsonBody (RpcReply.errorEnvelope _ _ _) => true
  | PostResult.sseEvent _ (RpcReply.errorEnvelope _ _ _) => true
  | _ => false

/-- JSON-RPC internal error code used by the adapter. -/
def internalErrorCode : Int := -32603

/-- _handle_tool_call, with the external FastMCP call outcome supplied
as a parameter (ok result content is opaque).  A missing or empty tool
name raises; a tool exception is re-raised wrapped; on success the event
is stored under the session stream, then a notification yields an empty
object and a request yields a result envelope.  The first component is
the event-store state at return or raise time. -/
def handleToolCall (ev : EvStore Nat) (sid : String) (req : RpcRequest)
    (callRes : Except String Nat) (now : Int) :
    EvStore Nat × Except String RpcReply :=
  match req.toolName with
  | none => (ev, Except.error "Tool name is required")
  | some n =>
    if n = "" then (ev, Except.error "Tool name is required")
    else
      match callRes with
      | Except.error e =>
        (ev, Except.error ("Error calling tool " ++ n ++ ": " ++ e))
      | Except.ok _ =>
        let stored := storeEvent ev sid 0 now
        match stored.2 with
        | Except.error _ => (stored.1, Except.error "event store failure")
        | Except.ok _ =>
          match req.rid with
          | none => (stored.1, Except.ok RpcReply.emptyObj)
          | some i => (stored.1, Except.ok (RpcReply.resultEnvelope (some i)))

/-- The reply computed by _handle_mcp_message after it stores the
message event: fixed envelopes for the initialization and tool-listing
methods, an empty object for other notifications, a generic ok envelope
otherwise. -/
def mcpReply (req : RpcRequest) : RpcReply :=
  if req.rmethod = some "initialize" then RpcReply.resultEnvelope req.rid
  else if req.rmethod = some "tools/list" then RpcReply.resultEnvelope req.rid
  else
    match req.rid with
    | none => RpcReply.emptyObj
    | some i => RpcReply.resultEnvelope (some i)

/-- The notification-aware exception handler at the end of _handle_post:
without an id the error is swallowed (empty JSON body in JSON mode, bare
finish in SSE mode); with an id a JSONRPCError envelope is emitted on
the active channel. -/
def postErrorPath (jr hasSse : Bool) (rid : Option Nat) (msg : String) :
    PostResult :=
  match rid with
  | none => if jr || !hasSse then PostResult.emptyJsonBody else PostResult.plainFinish
  | some i =>
    if jr || !hasSse then
      PostResult.jsonBody (RpcReply.errorEnvelope i internalErrorCode msg)
    else PostResult.sseEvent "error" (RpcReply.errorEnvelope i internalErrorCode msg)

/-- _handle_post after session resolution: dispatch on tools/call versus
other messages, answer over JSON or the SSE channel, and on any raised
exception fall into the notification-aware error path. -/
def handlePost (ev : EvStore Nat) (sid : String) (jr hasSse : Bool)
    (req : RpcRequest) (callRes : Except String Nat) (now : Int) :
    EvStore Nat × PostResult :=
  if req.rmethod = some "tools/call" then
    match handleToolCall ev sid req callRes now with
    | (ev1, Except.ok reply) =>
      (ev1, if jr || !hasSse then PostResult.jsonBody reply
            else PostResult.sseEvent "tool_result" reply)
    | (ev1, Except.error e) => (ev1, postErrorPath jr hasSse req.rid e)
  else
    let stored := storeEvent ev sid 0 now
    match stored.2 with
    | Except.error _ =>
      (stored.1, postErrorPath jr hasSse req.rid "event store failure")
    | Except.ok _ =>
      (stored.1, if jr || !hasSse then PostResult.jsonBody (mcpReply req)
                 else PostResult.sseEvent "mcp_response" (mcpReply req))

/-! # Top-level request handling (handle_request) -/

/-- One inbound HTTP request: method, whether the Content-Type header
contains application/json, the JSON parse outcome of the body (none
models a json.JSONDecodeError), and the mcp-session-id header. -/
structure HttpReq where
  hmethod : String
  ctJson : Bool
  parsed : Option RpcRequest
  header : Option String
deriving DecidableEq, Repr

/-- Combined server state: session registry plus event store. -/
structure ServerState where
  sm : SMState
  ev : EvStore Nat
deriving DecidableEq, Repr

/-- The response summary of one request. -/
inductive ReqResp where
  | clientError (status : Nat) (msg : String)
  | post (r : PostResult)
  | deleted (status : Nat) (msg : String)
  | getStream
deriving DecidableEq, Repr

/-- handle_request: POST bodies are content-type checked and parsed
before any dispatch, with a 400 response on failure; then the request is
routed by method.  freshSid stands for the uuid minted when no session
header is present, callRes for the external tool-call outcome. -/
def execRequest (s : ServerState) (r : HttpReq) (freshSid : String)
    (now : Int) (jr : Bool) (callRes : Except String Nat) :
    ServerState × ReqResp :=
  if r.hmethod = "POST" then
    if !r.ctJson then (s, ReqResp.clientError 400 "Unsupported content type")
    else
      match r.parsed with
      | none => (s, ReqResp.clientError 400 "Invalid JSON")
      | some req =>
        let res := getOrCreateSessionId s.sm r.header freshSid now
        let hasSse := decide (res.1 ∈ res.2.sse)
        let posted := handlePost s.ev res.1 jr hasSse req callRes now
        ({ sm := res.2, ev := posted.1 }, ReqResp.post posted.2)
  else if r.hmethod = "GET" then
    let res := getOrCreateSessionId s.sm r.header freshSid now
    ({ s with sm := { res.2 with sse := addSse res.2.sse res.1 } },
     ReqResp.getStream)
  else if r.hmethod = "DELETE" then
    let del := handleDelete s.sm r.header now
    ({ s with sm := del.1 }, ReqResp.deleted del.2.1 del.2.2)
  else (s, ReqResp.clientError 405 "Method not allowed")

/-! # Association-list lemmas -/

theorem alookup_eq_none_iff {κ β : Type} [DecidableEq κ] (l : List (κ × β)) (k : κ) :
    alookup l k = none ↔ k ∉ akeys l := by
  induction l with
  | nil => simp [alookup, akeys]
  | cons p rest ih =>
    obtain ⟨k1, v⟩ := p
    by_cases h : k1 = k
    · subst h; simp [alookup, akeys]
    · have h2 : ¬k = k1 := fun he => h he.symm
      simp [alookup, akeys, h, h2, ih]

theorem alookup_isSome_iff {κ β : Type} [DecidableEq κ] (l : List (κ × β)) (k : κ) :
    (alookup l k).isSome = true ↔ k ∈ akeys l := by
  rcases h : alookup l k with _ | v
  · simpa [Option.isSome] using (alookup_eq_none_iff l k).mp h
  · simp only [Option.isSome, true_iff]
    by_contra hk
    rw [(alookup_eq_none_iff l k).mpr hk] at h
    exact Option.noConfusion h

theorem alookup_mem {κ β : Type} [DecidableEq κ] {l : List (κ × β)} {k : κ} {v : β}
    (h : alookup l k = some v) : (k, v) ∈ l := by
  induction l with
  | nil => simp [alookup] at h
  | cons p rest ih =>
    obtain ⟨k1, v1⟩ := p
    by_cases hk : k1 = k
    · subst hk
      have h2 : v1 = v := by simpa [alookup] using h
      subst h2
      exact List.mem_cons_self _ _
    · simp only [alookup, if_neg hk] at h
      simp [ih h]

theorem mem_alookup_of_nodup {κ β : Type} [DecidableEq κ] {l : List (κ × β)}
    {k : κ} {v : β} (hn : (akeys l).Nodup) (h : (k, v) ∈ l) :
    alookup l k = some v := by
  induction l with
  | nil => simp at h
  | cons p rest ih =>
    obtain ⟨k1, v1⟩ := p
    simp only [akeys, List.map_cons, List.nodup_cons] at hn
    rcases List.mem_cons.mp h with h | h
    · have e1 : k1 = k := (congrArg Prod.fst h).symm
      subst e1
      simp only [alookup, if_pos rfl]
      exact congrArg some (congrArg Prod.snd h).symm
    · have hk : k1 ≠ k := by
        intro he
        subst he
        exact hn.1 (List.mem_map_of_mem Prod.fst h)
      simp only [alookup, if_neg hk]
      exact ih hn.2 h

theorem alookup_aset_self {κ β : Type} [DecidableEq κ] (l : List (κ × β)) (k : κ) (v : β) :
    alookup (aset l k v) k = some v := by
  induction l with
  | nil => simp [aset, alookup]
  | cons p rest ih =>
    obtain ⟨k1, v1⟩ := p
    by_cases h : k1 = k
    · simp [aset, h, alookup]
    · simp [aset, h, alookup, ih]

theorem alookup_aset_ne {κ β : Type} [DecidableEq κ] (l : List (κ × β)) (k k1 : κ) (v : β)
    (h : k1 ≠ k) : alookup (aset l k v) k1 = alookup l k1 := by
  induction l with
  | nil =>
    have h2 : ¬k = k1 := fun he => h he.symm
    simp [aset, alookup, h2]
  | cons p rest ih =>
    obtain ⟨k2, v2⟩ := p
    by_cases hk : k2 = k
    · subst hk
      have h2 : ¬k2 = k1 := fun he => h he.symm
      simp [aset, alookup, h2]
    · simp [aset, hk, alookup, ih]

theorem alookup_aerase_ne {κ β : Type} [DecidableEq κ] (l : List (κ × β)) (k k1 : κ)
    (h : k1 ≠ k) : alookup (aerase l k) k1 = alookup l k1 := by
  induction l with
  | nil => simp [aerase, alookup]
  | cons p rest ih =>
    obtain ⟨k2, v2⟩ := p
    by_cases hk : k2 = k
    · subst hk
      have h2 : ¬k2 = k1 := fun he => h he.symm
      simp [aerase, alookup, h2]
    · simp [aerase, hk, alookup, ih]

theorem akeys_aerase {κ β : Type} [DecidableEq κ] (l : List (κ × β)) (k : κ) :
    akeys (aerase l k) = (akeys l).erase k := by
  induction l with
  | nil => simp [aerase, akeys]
  | cons p rest ih =>
    obtain ⟨k1, v1⟩ := p
    by_cases h : k1 = k
    · subst h
      simp [aerase, akeys]
    · have hb : ¬(k1 == k) = true := by simp [h]
      calc akeys (aerase ((k1, v1) :: rest) k)
        = k1 :: akeys (aerase rest k) := by simp [aerase, h, akeys]
        _ = k1 :: (akeys rest).erase k := by rw [ih]
        _ = (k1 :: akeys rest).erase k := (List.erase_cons_tail hb).symm
        _ = (akeys ((k1, v1) :: rest)).erase k := by simp [akeys]

theorem alookup_aerase_self {κ β : Type} [DecidableEq κ] (l : List (κ × β)) (k : κ)
    (hn : (akeys l).Nodup) : alookup (aerase l k) k = none := by
  rw [alookup_eq_none_iff, akeys_aerase]
  exact hn.not_mem_erase

theorem akeys_aset_mem {κ β : Type} [DecidableEq κ] (l : List (κ × β)) (k : κ) (v : β)
    (h : k ∈ akeys l) : akeys (aset l k v) = akeys l := by
  induction l with
  | nil => simp [akeys] at h
  | cons p rest ih =>
    obtain ⟨k1, v1⟩ := p
    by_cases hk : k1 = k
    · simp [aset, hk, akeys]
    · have h2 : k ∈ akeys rest := by
        rcases (List.mem_cons.mp h) with h | h
        · exact absurd h.symm hk
        · exact h
      have ih2 := ih h2
      simp only [akeys] at ih2
      simp [aset, hk, akeys, ih2]

theorem akeys_aset_not_mem {κ β : Type} [DecidableEq κ] (l : List (κ × β)) (k : κ) (v : β)
    (h : k ∉ akeys l) : akeys (aset l k v) = akeys l ++ [k] := by
  induction l with
  | nil => simp [aset, akeys]
  | cons p rest ih =>
    obtain ⟨k1, v1⟩ := p
    simp only [akeys, List.map_cons, List.mem_cons] at h
    push_neg at h
    have hk : ¬k1 = k := fun he => h.1 he.symm
    have ih2 := ih h.2
    simp only [akeys] at ih2
    simp [aset, hk, akeys, ih2]

theorem nodup_akeys_aset {κ β : Type} [DecidableEq κ] (l : List (κ × β)) (k : κ) (v : β)
    (hn : (akeys l).Nodup) : (akeys (aset l k v)).Nodup := by
  by_cases h : k ∈ akeys l
  · rw [akeys_aset_mem l k v h]; exact hn
  · rw [akeys_aset_not_mem l k v h]
    simpa using List.Nodup.append hn (List.nodup_singleton k)
      (by simpa [List.disjoint_singleton] using h)

theorem nodup_akeys_aerase {κ β : Type} [DecidableEq κ] (l : List (κ × β)) (k : κ)
    (hn : (akeys l).Nodup) : (akeys (aerase l k)).Nodup := by
  rw [akeys_aerase]; exact hn.erase k

theorem mem_aset_cases {κ β : Type} [DecidableEq κ] {l : List (κ × β)} {k : κ} {v : β}
    {p : κ × β} (h : p ∈ aset l k v) : p = (k, v) ∨ p ∈ l := by
  induction l with
  | nil => simpa [aset] using h
  | cons q rest ih =>
    obtain ⟨k1, v1⟩ := q
    by_cases hk : k1 = k
    · subst hk
      simp only [aset, if_pos rfl] at h
      rcases List.mem_cons.mp h with h | h
      · exact Or.inl h
      · exact Or.inr (List.mem_cons_of_mem _ h)
    · simp only [aset, if_neg hk] at h
      rcases List.mem_cons.mp h with h | h
      · exact Or.inr (by simp [h])
      · rcases ih h with h | h
        · exact Or.inl h
        · exact Or.inr (List.mem_cons_of_mem _ h)

theorem mem_aset_self {κ β : Type} [DecidableEq κ] (l : List (κ × β)) (k : κ) (v : β) :
    (k, v) ∈ aset l k v := by
  induction l with
  | nil => simp [aset]
  | cons q rest ih =>
    obtain ⟨k1, v1⟩ := q
    by_cases hk : k1 = k
    · subst hk; simp [aset]
    · simp [aset, hk, ih]

theorem mem_aset_of_mem_ne {κ β : Type} [DecidableEq κ] {l : List (κ × β)} {k : κ} {v : β}
    {p : κ × β} (h : p ∈ l) (hne : p.1 ≠ k) : p ∈ aset l k v := by
  induction l with
  | nil => simp at h
  | cons q rest ih =>
    obtain ⟨k1, v1⟩ := q
    by_cases hk : k1 = k
    · subst hk
      have h2 : p ∈ rest := by
        rcases List.mem_cons.mp h with h | h
        · exact absurd (congrArg Prod.fst h) hne
        · exact h
      simp only [aset, if_pos rfl]
      exact List.mem_cons_of_mem _ h2
    · simp only [aset, if_neg hk]
      rcases List.mem_cons.mp h with h | h
      · exact h ▸ List.mem_cons_self _ _
      · exact List.mem_cons_of_mem _ (ih h)

theorem mem_of_mem_aerase {κ β : Type} [DecidableEq κ] {l : List (κ × β)} {k : κ}
    {p : κ × β} (h : p ∈ aerase l k) : p ∈ l := by
  induction l with
  | nil => simp [aerase] at h
  | cons q rest ih =>
    obtain ⟨k1, v1⟩ := q
    by_cases hk : k1 = k
    · subst hk
      simp only [aerase, if_pos rfl] at h
      exact List.mem_cons_of_mem _ h
    · simp only [aerase, if_neg hk] at h
      rcases List.mem_cons.mp h with h | h
      · exact h ▸ List.mem_cons_self _ _
      · exact List.mem_cons_of_mem _ (ih h)

theorem mem_aerase_of_mem_ne {κ β : Type} [DecidableEq κ] {l : List (κ × β)} {k : κ}
    {p : κ × β} (h : p ∈ l) (hne : p.1 ≠ k) : p ∈ aerase l k := by
  induction l with
  | nil => simp at h
  | cons q rest ih =>
    obtain ⟨k1, v1⟩ := q
    by_cases hk : k1 = k
    · subst hk
      simp only [aerase, if_pos rfl]
      rcases List.mem_cons.mp h with h | h
      · exact absurd (congrArg Prod.fst h) hne
      · exact h
    · simp only [aerase, if_neg hk]
      rcases List.mem_cons.mp h with h | h
      · exact h ▸ List.mem_cons_self _ _
      · exact List.mem_cons_of_mem _ (ih h)

theorem ne_of_mem_aerase {κ β : Type} [DecidableEq κ] {l : List (κ × β)} {k : κ}
    {p : κ × β} (hn : (akeys l).Nodup) (h : p ∈ aerase l k) : p.1 ≠ k := by
  intro he
  have h1 : p.1 ∈ akeys (aerase l k) := List.mem_map_of_mem Prod.fst h
  rw [akeys_aerase, he] at h1
  exact hn.not_mem_erase h1

theorem length_aset_mem {κ β : Type} [DecidableEq κ] (l : List (κ × β)) (k : κ) (v : β)
    (h : k ∈ akeys l) : (aset l k v).length = l.length := by
  have h1 := congrArg List.length (akeys_aset_mem l k v h)
  simpa [akeys] using h1

theorem length_aset_not_mem {κ β : Type} [DecidableEq κ] (l : List (κ × β)) (k : κ) (v : β)
    (h : k ∉ akeys l) : (aset l k v).length = l.length + 1 := by
  have h1 := congrArg List.length (akeys_aset_not_mem l k v h)
  simpa [akeys] using h1

theorem length_aerase_mem {κ β : Type} [DecidableEq κ] (l : List (κ × β)) (k : κ)
    (h : k ∈ akeys l) : (aerase l k).length + 1 = l.length := by
  have h0 : k ∈ List.map Prod.fst l := by simpa [akeys] using h
  have h1 := congrArg List.length (akeys_aerase l k)
  simp only [akeys] at h1
  rw [List.length_erase_of_mem h0] at h1
  have h2 : 0 < (List.map Prod.fst l).length :=
    List.length_pos.mpr (List.ne_nil_of_mem h0)
  simp only [List.length_map] at h1 h2
  omega

/-! # Lemmas about the index erase fold and min selection -/

theorem alookup_none_eraseFold {κ β γ : Type} [DecidableEq κ] (es : List γ)
    (f : γ → κ) (ix : List (κ × β)) (x : κ) (h : alookup ix x = none) :
    alookup (es.foldl (fun a e => aerase a (f e)) ix) x = none := by
  induction es generalizing ix with
  | nil => simpa using h
  | cons e rest ih =>
    simp only [List.foldl_cons]
    apply ih
    rw [alookup_eq_none_iff] at h ⊢
    intro hmem
    rw [akeys_aerase] at hmem
    exact h (List.mem_of_mem_erase hmem)

theorem nodup_akeys_eraseFold {κ β γ : Type} [DecidableEq κ] (es : List γ)
    (f : γ → κ) (ix : List (κ × β)) (hn : (akeys ix).Nodup) :
    (akeys (es.foldl (fun a e => aerase a (f e)) ix)).Nodup := by
  induction es generalizing ix with
  | nil => simpa using hn
  | cons e rest ih =>
    simp only [List.foldl_cons]
    exact ih _ (nodup_akeys_aerase _ _ hn)

theorem alookup_eraseFold_not_mem {κ β γ : Type} [DecidableEq κ] (es : List γ)
    (f : γ → κ) (ix : List (κ × β)) (x : κ) (h : x ∉ es.map f) :
    alookup (es.foldl (fun a e => aerase a (f e)) ix) x = alookup ix x := by
  induction es generalizing ix with
  | nil => simp
  | cons e rest ih =>
    simp only [List.map_cons, List.mem_cons] at h
    push_neg at h
    simp only [List.foldl_cons]
    rw [ih _ h.2, alookup_aerase_ne _ _ _ h.1]

theorem alookup_eraseFold_mem {κ β γ : Type} [DecidableEq κ] (es : List γ)
    (f : γ → κ) (ix : List (κ × β)) (x : κ) (hn : (akeys ix).Nodup)
    (h : x ∈ es.map f) :
    alookup (es.foldl (fun a e => aerase a (f e)) ix) x = none := by
  induction es generalizing ix with
  | nil => simp at h
  | cons e rest ih =>
    simp only [List.foldl_cons]
    by_cases hx : x = f e
    · apply alookup_none_eraseFold
      rw [hx]
      exact alookup_aerase_self _ _ hn
    · simp only [List.map_cons] at h
      rcases List.mem_cons.mp h with h1 | h1
      · exact absurd h1 hx
      · exact ih _ (nodup_akeys_aerase _ _ hn) h1

theorem mem_of_mem_eraseFold {κ β γ : Type} [DecidableEq κ] (es : List γ)
    (f : γ → κ) (ix : List (κ × β)) (q : κ × β)
    (h : q ∈ es.foldl (fun a e => aerase a (f e)) ix) : q ∈ ix := by
  induction es generalizing ix with
  | nil => simpa using h
  | cons e rest ih =>
    simp only [List.foldl_cons] at h
    exact mem_of_mem_aerase (ih _ h)

theorem minFold_spec {κ : Type} (f : κ → Int) (l : List κ) :
    ∀ m r, l.foldl (minStep f) (some m) = some r →
      (r = m ∨ r ∈ l) ∧ f r ≤ f m ∧ ∀ x ∈ l, f r ≤ f x := by
  induction l with
  | nil =>
    intro m r h
    simp only [List.foldl_nil, Option.some.injEq] at h
    subst h
    exact ⟨Or.inl rfl, le_refl _, by simp⟩
  | cons x l ih =>
    intro m r h
    simp only [List.foldl_cons] at h
    by_cases hlt : f x < f m
    · rw [show minStep f (some m) x = some x by simp [minStep, hlt]] at h
      obtain ⟨hmem, hle, hall⟩ := ih x r h
      refine ⟨?_, ?_, ?_⟩
      · rcases hmem with h1 | h1
        · exact Or.inr (h1 ▸ List.mem_cons_self _ _)
        · exact Or.inr (List.mem_cons_of_mem _ h1)
      · exact le_of_lt (lt_of_le_of_lt hle hlt)
      · intro y hy
        rcases List.mem_cons.mp hy with h1 | h1
        · exact h1 ▸ hle
        · exact hall y h1
    · rw [show minStep f (some m) x = some m by simp [minStep, hlt]] at h
      obtain ⟨hmem, hle, hall⟩ := ih m r h
      refine ⟨?_, ?_, ?_⟩
      · rcases hmem with h1 | h1
        · exact Or.inl h1
        · exact Or.inr (List.mem_cons_of_mem _ h1)
      · exact hle
      · intro y hy
        rcases List.mem_cons.mp hy with h1 | h1
        · exact h1 ▸ le_trans hle (le_of_not_lt hlt)
        · exact hall y h1

theorem minByVal_spec {κ : Type} (l : List κ) (f : κ → Int) (v : κ)
    (h : minByVal l f = some v) : v ∈ l ∧ ∀ x ∈ l, f v ≤ f x := by
  cases l with
  | nil => simp [minByVal] at h
  | cons a l0 =>
    simp only [minByVal, List.foldl_cons,
      show minStep f none a = some a from rfl] at h
    obtain ⟨hmem, hle, hall⟩ := minFold_spec f l0 a v h
    refine ⟨?_, ?_⟩
    · rcases hmem with h1 | h1
      · exact h1 ▸ List.mem_cons_self _ _
      · exact List.mem_cons_of_mem _ h1
    · intro x hx
      rcases List.mem_cons.mp hx with h1 | h1
      · exact h1 ▸ hle
      · exact hall x h1

/-! # Store invariant preservation -/

theorem ids_cross_of_inv {α : Type} [DecidableEq α] {st : EvStore α}
    (hinv : StoreInv st) {p q : String × List (EventEntry α)}
    (hp : p ∈ st.streams) (hq : q ∈ st.streams) (hne : p.1 ≠ q.1)
    {e1 e2 : EventEntry α} (he1 : e1 ∈ p.2) (he2 : e2 ∈ q.2) :
    e1.event_id ≠ e2.event_id := by
  obtain ⟨_, _, _, _, _, _, h7, _, _, h10, _⟩ := hinv
  intro h
  have ha := h10 p hp e1 he1
  have hb := h10 q hq e2 he2
  rw [h] at ha
  rw [ha] at hb
  have he : e1 = e2 := Option.some.inj hb
  apply hne
  rw [← h7 p hp e1 he1, ← h7 q hq e2 he2, he]

theorem storeInv_removeStreamState {α : Type} [DecidableEq α] (st : EvStore α)
    (sid : String) (hinv : StoreInv st) : StoreInv (removeStreamState st sid) := by
  obtain ⟨h1, h2, h3, h4, h5, h6, h7, h8, h9, h10, h11⟩ := hinv
  rcases hs : alookup st.streams sid with _ | es
  · simp only [removeStreamState, hs]
    exact ⟨h1, h2, h3, h4, h5, h6, h7, h8, h9, h10, h11⟩
  · have hsmem : (sid, es) ∈ st.streams := alookup_mem hs
    simp only [removeStreamState, hs]
    refine ⟨?_, ?_, ?_, ?_, ?_, ?_, ?_, ?_, ?_, ?_, ?_⟩
    · exact nodup_akeys_aerase _ _ h1
    · exact nodup_akeys_aerase _ _ h2
    · exact nodup_akeys_eraseFold es EventEntry.event_id _ h3
    · intro p hp
      have hpl : p ∈ st.streams := mem_of_mem_aerase hp
      have hne : p.1 ≠ sid := ne_of_mem_aerase h1 hp
      have hm := h4 p hpl
      rw [akeys_aerase]
      exact (List.mem_erase_of_ne hne).mpr hm
    · intro p hp
      have hpl : p ∈ st.meta := mem_of_mem_aerase hp
      have hne : p.1 ≠ sid := ne_of_mem_aerase h2 hp
      have hm := h5 p hpl
      rw [akeys_aerase]
      exact (List.mem_erase_of_ne hne).mpr hm
    · intro p hp
      exact h6 p (mem_of_mem_aerase hp)
    · intro p hp
      exact h7 p (mem_of_mem_aerase hp)
    · intro p hp
      exact h8 p (mem_of_mem_aerase hp)
    · intro p hp
      exact h9 p (mem_of_mem_aerase hp)
    · intro p hp e he
      have hpl : p ∈ st.streams := mem_of_mem_aerase hp
      have hne : p.1 ≠ sid := ne_of_mem_aerase h1 hp
      have hnotin : e.event_id ∉ es.map EventEntry.event_id := by
        intro hmem
        obtain ⟨e2, he2, heq⟩ := List.mem_map.mp hmem
        exact ids_cross_of_inv ⟨h1, h2, h3, h4, h5, h6, h7, h8, h9, h10, h11⟩
          hpl hsmem hne he he2 heq.symm
      have := alookup_eraseFold_not_mem es EventEntry.event_id st.index e.event_id hnotin
      rw [show (es.foldl (fun a e2 => aerase a e2.event_id) st.index)
            = (es.foldl (fun a e2 => aerase a (EventEntry.event_id e2)) st.index) from rfl,
        this]
      exact h10 p hpl e he
    · intro q hq
      have hqix : q ∈ st.index := mem_of_mem_eraseFold es EventEntry.event_id _ q hq
      obtain ⟨p, hp, hqp, hqid⟩ := h11 q hqix
      by_cases hps : p.1 = sid
      · exfalso
        have hpes : p.2 = es := by
          have hl := mem_alookup_of_nodup h1 hp
          rw [hps, hs] at hl
          exact (Option.some.inj hl).symm
        have hmem : q.1 ∈ es.map EventEntry.event_id := by
          rw [← hqid]
          exact List.mem_map_of_mem EventEntry.event_id (hpes ▸ hqp)
        have hnone := alookup_eraseFold_mem es EventEntry.event_id st.index q.1 h3 hmem
        have hsome := mem_alookup_of_nodup
          (nodup_akeys_eraseFold es EventEntry.event_id _ h3) hq
        rw [show (es.foldl (fun a e2 => aerase a e2.event_id) st.index)
              = (es.foldl (fun a e2 => aerase a (EventEntry.event_id e2)) st.index) from rfl]
          at hsome
        rw [hsome] at hnone
        exact Option.noConfusion hnone
      · exact ⟨p, mem_aerase_of_mem_ne hp hps, hqp, hqid⟩

theorem mem_aset_cases_nodup {κ β : Type} [DecidableEq κ] {l : List (κ × β)}
    {k : κ} {v : β} {p : κ × β} (hn : (akeys l).Nodup) (h : p ∈ aset l k v) :
    p = (k, v) ∨ (p ∈ l ∧ p.1 ≠ k) := by
  induction l with
  | nil => exact Or.inl (by simpa [aset] using h)
  | cons q rest ih =>
    obtain ⟨k1, v1⟩ := q
    simp only [akeys, List.map_cons, List.nodup_cons] at hn
    by_cases hk : k1 = k
    · subst hk
      simp only [aset, if_pos rfl] at h
      rcases List.mem_cons.mp h with h | h
      · exact Or.inl h
      · refine Or.inr ⟨List.mem_cons_of_mem _ h, ?_⟩
        intro he
        exact hn.1 (he ▸ List.mem_map_of_mem Prod.fst h)
    · simp only [aset, if_neg hk] at h
      rcases List.mem_cons.mp h with h | h
      · exact Or.inr ⟨h ▸ List.mem_cons_self _ _, by
          rw [h]
          exact hk⟩
      · rcases ih hn.2 h with h | ⟨h1, h2⟩
        · exact Or.inl h
        · exact Or.inr ⟨List.mem_cons_of_mem _ h1, h2⟩

theorem storeInv_append_notfull {α : Type} [DecidableEq α]
    (st : EvStore α) (sid : String) (es : List (EventEntry α)) (msg : α)
    (now : Int) (m2 : StreamMeta) (hinv : StoreInv st)
    (hes : alookup st.streams sid = some es) (hlen : es.length < st.maxE) :
    StoreInv { st with
      streams := aset st.streams sid (es ++ [⟨st.nextId, sid, msg, now⟩])
      index := aset st.index st.nextId ⟨st.nextId, sid, msg, now⟩
      meta := aset st.meta sid m2
      nextId := st.nextId + 1 } := by
  obtain ⟨h1, h2, h3, h4, h5, h6, h7, h8, h9, h10, h11⟩ := hinv
  have hsmem : (sid, es) ∈ st.streams := alookup_mem hes
  have hskeys : sid ∈ akeys st.streams := List.mem_map_of_mem Prod.fst hsmem
  have hsmeta : sid ∈ akeys st.meta := h4 (sid, es) hsmem
  refine ⟨?_, ?_, ?_, ?_, ?_, ?_, ?_, ?_, ?_, ?_, ?_⟩
  · exact nodup_akeys_aset _ _ _ h1
  · exact nodup_akeys_aset _ _ _ h2
  · exact nodup_akeys_aset _ _ _ h3
  · intro p hp
    rw [show ({ st with
      streams := aset st.streams sid (es ++ [⟨st.nextId, sid, msg, now⟩])
      index := aset st.index st.nextId ⟨st.nextId, sid, msg, now⟩
      meta := aset st.meta sid m2
      nextId := st.nextId + 1 } : EvStore α).meta = aset st.meta sid m2 from rfl,
      akeys_aset_mem _ _ _ hsmeta]
    rcases mem_aset_cases hp with h | h
    · rw [h]
      exact hsmeta
    · exact h4 p h
  · intro p hp
    rw [show ({ st with
      streams := aset st.streams sid (es ++ [⟨st.nextId, sid, msg, now⟩])
      index := aset st.index st.nextId ⟨st.nextId, sid, msg, now⟩
      meta := aset st.meta sid m2
      nextId := st.nextId + 1 } : EvStore α).streams
        = aset st.streams sid (es ++ [⟨st.nextId, sid, msg, now⟩]) from rfl,
      akeys_aset_mem _ _ _ hskeys]
    rcases mem_aset_cases hp with h | h
    · rw [h]
      exact hskeys
    · exact h5 p h
  · intro p hp
    rcases mem_aset_cases hp with h | h
    · rw [h]
      simpa using Nat.succ_le_of_lt hlen
    · exact h6 p h
  · intro p hp e he
    rcases mem_aset_cases hp with h | h
    · subst h
      rcases List.mem_append.mp he with h | h
      · exact h7 (sid, es) hsmem e h
      · simp only [List.mem_singleton] at h
        rw [h]
    · exact h7 p h e he
  · intro p hp e he
    rcases mem_aset_cases hp with h | h
    · subst h
      rcases List.mem_append.mp he with h | h
      · exact Nat.lt_succ_of_lt (h8 (sid, es) hsmem e h)
      · simp only [List.mem_singleton] at h
        rw [h]
        exact Nat.lt_succ_self _
    · exact Nat.lt_succ_of_lt (h8 p h e he)
  · intro p hp
    rcases mem_aset_cases hp with h | h
    · subst h
      simp only [List.map_append, List.map_cons, List.map_nil]
      rw [List.nodup_append]
      refine ⟨h9 (sid, es) hsmem, List.nodup_singleton _, ?_⟩
      intro x hx
      have hlt := h8 (sid, es) hsmem
      obtain ⟨e, he, heq⟩ := List.mem_map.mp hx
      simp only [List.mem_singleton]
      intro heq2
      rw [heq2] at heq
      exact absurd heq (Nat.ne_of_lt (hlt e he))
    · exact h9 p h
  · intro p hp e he
    rcases mem_aset_cases hp with h | h
    · subst h
      rcases List.mem_append.mp he with h | h
      · have hne : e.event_id ≠ st.nextId := Nat.ne_of_lt (h8 (sid, es) hsmem e h)
        rw [show ({ st with
          streams := aset st.streams sid (es ++ [⟨st.nextId, sid, msg, now⟩])
          index := aset st.index st.nextId ⟨st.nextId, sid, msg, now⟩
          meta := aset st.meta sid m2
          nextId := st.nextId + 1 } : EvStore α).index
            = aset st.index st.nextId ⟨st.nextId, sid, msg, now⟩ from rfl,
          alookup_aset_ne _ _ _ _ hne]
        exact h10 (sid, es) hsmem e h
      · simp only [List.mem_singleton] at h
        rw [h]
        exact alookup_aset_self _ _ _
    · have hne : e.event_id ≠ st.nextId := Nat.ne_of_lt (h8 p h e he)
      rw [show ({ st with
        streams := aset st.streams sid (es ++ [⟨st.nextId, sid, msg, now⟩])
        index := aset st.index st.nextId ⟨st.nextId, sid, msg, now⟩
        meta := aset st.meta sid m2
        nextId := st.nextId + 1 } : EvStore α).index
          = aset st.index st.nextId ⟨st.nextId, sid, msg, now⟩ from rfl,
        alookup_aset_ne _ _ _ _ hne]
      exact h10 p h e he
  · intro q hq
    rcases mem_aset_cases_nodup h3 hq with h | ⟨hq1, hq2⟩
    · subst h
      refine ⟨(sid, es ++ [⟨st.nextId, sid, msg, now⟩]), mem_aset_self _ _ _, ?_, rfl⟩
      simp
    · obtain ⟨p, hp, hqp, hqid⟩ := h11 q hq1
      by_cases hps : p.1 = sid
      · have hpes : p.2 = es := by
          have hl := mem_alookup_of_nodup h1 hp
          rw [hps, hes] at hl
          exact (Option.some.inj hl).symm
        refine ⟨(sid, es ++ [⟨st.nextId, sid, msg, now⟩]), mem_aset_self _ _ _, ?_, hqid⟩
        exact List.mem_append_left _ (hpes ▸ hqp)
      · exact ⟨p, mem_aset_of_mem_ne hp hps, hqp, hqid⟩

theorem storeInv_append_full {α : Type} [DecidableEq α]
    (st : EvStore α) (sid : String) (oldest : EventEntry α)
    (rest : List (EventEntry α)) (msg : α) (now : Int) (m2 : StreamMeta)
    (hinv : StoreInv st)
    (hes : alookup st.streams sid = some (oldest :: rest)) :
    StoreInv { st with
      streams := aset st.streams sid (rest ++ [⟨st.nextId, sid, msg, now⟩])
      index := aset (aerase st.index oldest.event_id) st.nextId
        ⟨st.nextId, sid, msg, now⟩
      meta := aset st.meta sid m2
      nextId := st.nextId + 1 } := by
  obtain ⟨h1, h2, h3, h4, h5, h6, h7, h8, h9, h10, h11⟩ := hinv
  have hsmem : (sid, oldest :: rest) ∈ st.streams := alookup_mem hes
  have hskeys : sid ∈ akeys st.streams := List.mem_map_of_mem Prod.fst hsmem
  have hsmeta : sid ∈ akeys st.meta := h4 _ hsmem
  have hids : (List.map EventEntry.event_id (oldest :: rest)).Nodup := h9 _ hsmem
  have holdnotin : oldest.event_id ∉ List.map EventEntry.event_id rest := by
    simp only [List.map_cons, List.nodup_cons] at hids
    exact hids.1
  refine ⟨?_, ?_, ?_, ?_, ?_, ?_, ?_, ?_, ?_, ?_, ?_⟩
  · exact nodup_akeys_aset _ _ _ h1
  · exact nodup_akeys_aset _ _ _ h2
  · exact nodup_akeys_aset _ _ _ (nodup_akeys_aerase _ _ h3)
  · intro p hp
    show p.1 ∈ akeys (aset st.meta sid m2)
    rw [akeys_aset_mem _ _ _ hsmeta]
    rcases mem_aset_cases hp with h | h
    · rw [h]
      exact hsmeta
    · exact h4 p h
  · intro p hp
    show p.1 ∈ akeys (aset st.streams sid (rest ++ [⟨st.nextId, sid, msg, now⟩]))
    rw [akeys_aset_mem _ _ _ hskeys]
    rcases mem_aset_cases hp with h | h
    · rw [h]
      exact hskeys
    · exact h5 p h
  · intro p hp
    rcases mem_aset_cases hp with h | h
    · rw [h]
      have := h6 _ hsmem
      simp only [List.length_cons] at this
      show (rest ++ [(⟨st.nextId, sid, msg, now⟩ : EventEntry α)]).length ≤ st.maxE
      simp only [List.length_append, List.length_cons, List.length_nil]
      omega
    · exact h6 p h
  · intro p hp e he
    rcases mem_aset_cases hp with h | h
    · subst h
      rcases List.mem_append.mp he with h | h
      · exact h7 _ hsmem e (List.mem_cons_of_mem _ h)
      · simp only [List.mem_singleton] at h
        rw [h]
    · exact h7 p h e he
  · intro p hp e he
    rcases mem_aset_cases hp with h | h
    · subst h
      rcases List.mem_append.mp he with h | h
      · exact Nat.lt_succ_of_lt (h8 _ hsmem e (List.mem_cons_of_mem _ h))
      · simp only [List.mem_singleton] at h
        rw [h]
        exact Nat.lt_succ_self _
    · exact Nat.lt_succ_of_lt (h8 p h e he)
  · intro p hp
    rcases mem_aset_cases hp with h | h
    · subst h
      simp only [List.map_append, List.map_cons, List.map_nil]
      rw [List.nodup_append]
      refine ⟨?_, List.nodup_singleton _, ?_⟩
      · simp only [List.map_cons, List.nodup_cons] at hids
        exact hids.2
      · intro x hx
        obtain ⟨e, he, heq⟩ := List.mem_map.mp hx
        simp only [List.mem_singleton]
        intro heq2
        rw [heq2] at heq
        exact absurd heq
          (Nat.ne_of_lt (h8 _ hsmem e (List.mem_cons_of_mem _ he)))
    · exact h9 p h
  · intro p hp e he
    rcases mem_aset_cases_nodup h1 hp with h | ⟨hpl, hps⟩
    · subst h
      rcases List.mem_append.mp he with h | h
      · have hne1 : e.event_id ≠ st.nextId :=
          Nat.ne_of_lt (h8 _ hsmem e (List.mem_cons_of_mem _ h))
        have hne2 : e.event_id ≠ oldest.event_id := by
          intro heq
          exact holdnotin (heq ▸ List.mem_map_of_mem EventEntry.event_id h)
        show alookup (aset (aerase st.index oldest.event_id) st.nextId
          ⟨st.nextId, sid, msg, now⟩) e.event_id = some e
        rw [alookup_aset_ne _ _ _ _ hne1, alookup_aerase_ne _ _ _ hne2]
        exact h10 _ hsmem e (List.mem_cons_of_mem _ h)
      · simp only [List.mem_singleton] at h
        rw [h]
        exact alookup_aset_self _ _ _
    · have hne1 : e.event_id ≠ st.nextId := Nat.ne_of_lt (h8 p hpl e he)
      have hne2 : e.event_id ≠ oldest.event_id :=
        ids_cross_of_inv ⟨h1, h2, h3, h4, h5, h6, h7, h8, h9, h10, h11⟩
          hpl hsmem hps he (List.mem_cons_self _ _)
      show alookup (aset (aerase st.index oldest.event_id) st.nextId
        ⟨st.nextId, sid, msg, now⟩) e.event_id = some e
      rw [alookup_aset_ne _ _ _ _ hne1, alookup_aerase_ne _ _ _ hne2]
      exact h10 p hpl e he
  · intro q hq
    rcases mem_aset_cases_nodup (nodup_akeys_aerase _ _ h3) hq with h | ⟨hq1, hq2⟩
    · subst h
      refine ⟨(sid, rest ++ [⟨st.nextId, sid, msg, now⟩]), mem_aset_self _ _ _, ?_, rfl⟩
      simp
    · have hqo : q.1 ≠ oldest.event_id := ne_of_mem_aerase h3 hq1
      have hqix : q ∈ st.index := mem_of_mem_aerase hq1
      obtain ⟨p, hp, hqp, hqid⟩ := h11 q hqix
      by_cases hps : p.1 = sid
      · have hpes : p.2 = oldest :: rest := by
          have hl := mem_alookup_of_nodup h1 hp
          rw [hps, hes] at hl
          exact (Option.some.inj hl).symm
        have hqrest : q.2 ∈ rest := by
          rcases List.mem_cons.mp (hpes ▸ hqp) with h | h
          · exact absurd (h ▸ hqid).symm hqo
          · exact h
        exact ⟨(sid, rest ++ [⟨st.nextId, sid, msg, now⟩]), mem_aset_self _ _ _,
          List.mem_append_left _ hqrest, hqid⟩
      · exact ⟨p, mem_aset_of_mem_ne hp hps, hqp, hqid⟩

theorem aset_aset {κ β : Type} [DecidableEq κ] (l : List (κ × β)) (k : κ) (v w : β) :
    aset (aset l k v) k w = aset l k w := by
  induction l with
  | nil => simp [aset]
  | cons p rest ih =>
    obtain ⟨k1, v1⟩ := p
    by_cases h : k1 = k
    · simp [aset, h]
    · simp [aset, h, ih]

theorem mem_akeys_aset_of_mem {κ β : Type} [DecidableEq κ] {l : List (κ × β)}
    {x k : κ} (v : β) (h : x ∈ akeys l) : x ∈ akeys (aset l k v) := by
  by_cases hk : k ∈ akeys l
  · rw [akeys_aset_mem _ _ _ hk]; exact h
  · rw [akeys_aset_not_mem _ _ _ hk]; exact List.mem_append_left _ h

theorem mem_akeys_aset_self {κ β : Type} [DecidableEq κ] (l : List (κ × β))
    (k : κ) (v : β) : k ∈ akeys (aset l k v) :=
  List.mem_map_of_mem Prod.fst (mem_aset_self l k v)

/-! # Branch equations of store_event -/

theorem storeEventBody_new_eq {α : Type} [DecidableEq α] (st : EvStore α)
    (sid : String) (msg : α) (now : Int)
    (hnew : alookup st.streams sid = none) (h0 : st.maxE ≠ 0) :
    storeEventBody st sid msg now
      = ({ st with
           streams := aset st.streams sid [⟨st.nextId, sid, msg, now⟩]
           index := aset st.index st.nextId ⟨st.nextId, sid, msg, now⟩
           meta := aset st.meta sid ⟨now, now, 1⟩
           nextId := st.nextId + 1 }, Except.ok st.nextId) := by
  have h1 : ¬0 = st.maxE := fun h => h0 h.symm
  simp [storeEventBody, hnew, alookup_aset_self, h1, aset_aset]

theorem storeEventBody_new_err {α : Type} [DecidableEq α] (st : EvStore α)
    (sid : String) (msg : α) (now : Int)
    (hnew : alookup st.streams sid = none) (h0 : st.maxE = 0) :
    storeEventBody st sid msg now
      = ({ st with
           streams := aset st.streams sid []
           meta := aset st.meta sid ⟨now, now, 0⟩ },
         Except.error PyError.indexError) := by
  simp [storeEventBody, hnew, alookup_aset_self, h0.symm]

theorem storeEventBody_existing_notfull {α : Type} [DecidableEq α] (st : EvStore α)
    (sid : String) (msg : α) (now : Int) (es : List (EventEntry α))
    (hes : alookup st.streams sid = some es) (hfull : es.length ≠ st.maxE) :
    storeEventBody st sid msg now
      = ({ st with
           streams := aset st.streams sid (es ++ [⟨st.nextId, sid, msg, now⟩])
           index := aset st.index st.nextId ⟨st.nextId, sid, msg, now⟩
           meta := aset st.meta sid
             { (alookup st.meta sid).getD ⟨now, now, 0⟩ with
               last_activity := now
               event_count := ((alookup st.meta sid).getD ⟨now, now, 0⟩).event_count + 1 }
           nextId := st.nextId + 1 }, Except.ok st.nextId) := by
  simp [storeEventBody, hes, hfull]

theorem storeEventBody_existing_full {α : Type} [DecidableEq α] (st : EvStore α)
    (sid : String) (msg : α) (now : Int) (oldest : EventEntry α)
    (rest : List (EventEntry α))
    (hes : alookup st.streams sid = some (oldest :: rest))
    (hfull : (oldest :: rest).length = st.maxE) :
    storeEventBody st sid msg now
      = ({ st with
           streams := aset st.streams sid (rest ++ [⟨st.nextId, sid, msg, now⟩])
           index := aset (aerase st.index oldest.event_id) st.nextId
             ⟨st.nextId, sid, msg, now⟩
           meta := aset st.meta sid
             { (alookup st.meta sid).getD ⟨now, now, 0⟩ with
               last_activity := now
               event_count := ((alookup st.meta sid).getD ⟨now, now, 0⟩).event_count + 1 }
           nextId := st.nextId + 1 }, Except.ok st.nextId) := by
  simp [storeEventBody, hes, hfull]

theorem storeEventBody_existing_err {α : Type} [DecidableEq α] (st : EvStore α)
    (sid : String) (msg : α) (now : Int)
    (hes : alookup st.streams sid = some []) (h0 : st.maxE = 0) :
    storeEventBody st sid msg now = (st, Except.error PyError.indexError) := by
  simp [storeEventBody, hes, h0]

theorem storeInv_addEmptyStream {α : Type} [DecidableEq α] (st : EvStore α)
    (sid : String) (m2 : StreamMeta) (hinv : StoreInv st)
    (hnew : alookup st.streams sid = none) :
    StoreInv { st with
      streams := aset st.streams sid []
      meta := aset st.meta sid m2 } := by
  obtain ⟨h1, h2, h3, h4, h5, h6, h7, h8, h9, h10, h11⟩ := hinv
  have hnewk : sid ∉ akeys st.streams := (alookup_eq_none_iff _ _).mp hnew
  refine ⟨nodup_akeys_aset _ _ _ h1, nodup_akeys_aset _ _ _ h2, h3,
    ?_, ?_, ?_, ?_, ?_, ?_, ?_, ?_⟩
  · intro p hp
    rcases mem_aset_cases hp with h | h
    · rw [h]
      exact mem_akeys_aset_self _ _ _
    · exact mem_akeys_aset_of_mem _ (h4 p h)
  · intro p hp
    rcases mem_aset_cases hp with h | h
    · rw [h]
      exact mem_akeys_aset_self _ _ _
    · exact mem_akeys_aset_of_mem _ (h5 p h)
  · intro p hp
    rcases mem_aset_cases hp with h | h
    · rw [h]
      exact Nat.zero_le _
    · exact h6 p h
  · intro p hp e he
    rcases mem_aset_cases hp with h | h
    · rw [h] at he
      simp at he
    · exact h7 p h e he
  · intro p hp e he
    rcases mem_aset_cases hp with h | h
    · rw [h] at he
      simp at he
    · exact h8 p h e he
  · intro p hp
    rcases mem_aset_cases hp with h | h
    · rw [h]
      simp
    · exact h9 p h
  · intro p hp e he
    rcases mem_aset_cases hp with h | h
    · rw [h] at he
      simp at he
    · exact h10 p h e he
  · intro q hq
    obtain ⟨p, hp, hqp, hqid⟩ := h11 q hq
    have hne : p.1 ≠ sid := by
      intro he
      exact hnewk (he ▸ List.mem_map_of_mem Prod.fst hp)
    exact ⟨p, mem_aset_of_mem_ne hp hne, hqp, hqid⟩

theorem storeInv_storeEventBody {α : Type} [DecidableEq α] (st : EvStore α)
    (sid : String) (msg : α) (now : Int) (hinv : StoreInv st) :
    StoreInv (storeEventBody st sid msg now).1 := by
  rcases hnew : alookup st.streams sid with _ | es
  · by_cases h0 : st.maxE = 0
    · rw [storeEventBody_new_err st sid msg now hnew h0]
      exact storeInv_addEmptyStream st sid ⟨now, now, 0⟩ hinv hnew
    · rw [storeEventBody_new_eq st sid msg now hnew h0]
      have hinv1 := storeInv_addEmptyStream st sid ⟨now, now, 0⟩ hinv hnew
      have h2 := storeInv_append_notfull _ sid [] msg now ⟨now, now, 1⟩ hinv1
        (alookup_aset_self _ _ _) (Nat.pos_of_ne_zero h0)
      simpa [aset_aset] using h2
  · by_cases hfull : es.length = st.maxE
    · cases es with
      | nil =>
        rw [storeEventBody_existing_err st sid msg now hnew
          (by simpa using hfull.symm)]
        exact hinv
      | cons oldest rest =>
        rw [storeEventBody_existing_full st sid msg now oldest rest hnew hfull]
        exact storeInv_append_full st sid oldest rest msg now _ hinv hnew
    · rw [storeEventBody_existing_notfull st sid msg now es hnew hfull]
      have hle := hinv.2.2.2.2.2.1 (sid, es) (alookup_mem hnew)
      exact storeInv_append_notfull st sid es msg now _ hinv hnew
        (lt_of_le_of_ne hle hfull)

theorem storeInv_storeEvent {α : Type} [DecidableEq α] (st : EvStore α)
    (sid : String) (msg : α) (now : Int) (hinv : StoreInv st) :
    StoreInv (storeEvent st sid msg now).1 := by
  unfold storeEvent
  by_cases hg : st.maxS ≤ st.streams.length ∧ (alookup st.streams sid).isNone
  · rw [if_pos hg]
    rcases hmin : minByVal (akeys st.streams) (laOf st) with _ | victim
    · exact hinv
    · exact storeInv_storeEventBody _ sid msg now
        (storeInv_removeStreamState st victim hinv)
  · rw [if_neg hg]
    exact storeInv_storeEventBody st sid msg now hinv

theorem storeInv_createStream {α : Type} [DecidableEq α] (st : EvStore α)
    (sid : String) (now : Int) (hinv : StoreInv st) :
    StoreInv (createStream st sid now).1 := by
  unfold createStream
  by_cases hs : (alookup st.streams sid).isSome
  · rw [if_pos hs]
    exact hinv
  · rw [if_neg hs]
    exact storeInv_addEmptyStream st sid ⟨now, now, 0⟩ hinv
      (Option.not_isSome_iff_eq_none.mp hs)

theorem storeInv_removeFoldCount {α : Type} [DecidableEq α]
    (l : List String) (acc : EvStore α × Nat) (hinv : StoreInv acc.1) :
    StoreInv (l.foldl (fun a sid =>
      (removeStreamState a.1 sid, a.2 + (if (alookup a.1.streams sid).isSome then 1 else 0)))
      acc).1 := by
  induction l generalizing acc with
  | nil => simpa using hinv
  | cons sid rest ih =>
    simp only [List.foldl_cons]
    exact ih _ (storeInv_removeStreamState _ sid hinv)

theorem storeInv_pruneOldStreams {α : Type} [DecidableEq α] (st : EvStore α)
    (maxAge : Int) (now : Int) (hinv : StoreInv st) :
    StoreInv (pruneOldStreams st maxAge now).1 := by
  unfold pruneOldStreams
  exact storeInv_removeFoldCount _ (st, 0) hinv

theorem storeInv_applyOp {α : Type} [DecidableEq α] (st : EvStore α)
    (op : EvOp α) (hinv : StoreInv st) : StoreInv (applyOp st op) := by
  cases op with
  | store sid msg now => exact storeInv_storeEvent st sid msg now hinv
  | remove sid => exact storeInv_removeStreamState st sid hinv
  | prune a now => exact storeInv_pruneOldStreams st a now hinv
  | create sid now => exact storeInv_createStream st sid now hinv

theorem storeInv_initStore {α : Type} [DecidableEq α] (maxE maxS : Nat) :
    StoreInv (initStore α maxE maxS) := by
  refine ⟨?_, ?_, ?_, ?_, ?_, ?_, ?_, ?_, ?_, ?_, ?_⟩ <;> simp [initStore, akeys]

theorem storeInv_runOps {α : Type} [DecidableEq α] (st : EvStore α)
    (ops : List (EvOp α)) (hinv : StoreInv st) : StoreInv (runOps st ops) := by
  induction ops generalizing st with
  | nil => simpa [runOps] using hinv
  | cons op rest ih =>
    simp only [runOps, List.foldl_cons]
    exact ih _ (storeInv_applyOp st op hinv)

/-! # Replay characterisation -/

theorem replayScan_spec {α : Type} (es : List (EventEntry α)) (k : Nat)
    (hk : k < es.length) (hnd : (es.map EventEntry.event_id).Nodup) :
    replayScan (es.get ⟨k, hk⟩).event_id es
      = ((es.drop (k + 1)).map toMsg,
         ((es.drop (k + 1)).map EventEntry.event_id).getLast?) := by
  induction es generalizing k with
  | nil => simp at hk
  | cons e rest ih =>
    simp only [List.map_cons, List.nodup_cons] at hnd
    cases k with
    | zero => simp [replayScan]
    | succ k =>
      have hk2 : k < rest.length := Nat.lt_of_succ_lt_succ hk
      have hmem : (rest.get ⟨k, hk2⟩).event_id ∈ rest.map EventEntry.event_id :=
        List.mem_map_of_mem EventEntry.event_id (rest.get_mem _ _)
      have hne : ¬e.event_id = (rest.get ⟨k, hk2⟩).event_id := by
        intro he
        exact hnd.1 (he ▸ hmem)
      show replayScan ((rest.get ⟨k, hk2⟩)).event_id (e :: rest) = _
      unfold replayScan
      rw [if_neg hne, ih k hk2 hnd.2]
      simp

/-- C1 helper: in a store satisfying the invariant, replay after the
cursor at position k of a live stream scans exactly the suffix after k. -/
theorem replayEventsAfter_spec {α : Type} [DecidableEq α] (st : EvStore α)
    (hinv : StoreInv st) (s : String) (es : List (EventEntry α))
    (hs : alookup st.streams s = some es) (k : Nat) (hk : k < es.length) :
    replayEventsAfter st (es.get ⟨k, hk⟩).event_id
      = ((es.drop (k + 1)).map toMsg,
         ((es.drop (k + 1)).map EventEntry.event_id).getLast?) := by
  obtain ⟨h1, h2, h3, h4, h5, h6, h7, h8, h9, h10, h11⟩ := hinv
  have hsmem : (s, es) ∈ st.streams := alookup_mem hs
  have hgmem : es.get ⟨k, hk⟩ ∈ es := es.get_mem _ _
  have hix := h10 (s, es) hsmem _ hgmem
  have hsid : (es.get ⟨k, hk⟩).stream_id = s := h7 (s, es) hsmem _ hgmem
  unfold replayEventsAfter
  rw [hix]
  simp only [hsid, hs]
  exact replayScan_spec es k hk (h9 (s, es) hsmem)

theorem replayEventsAfter_unknown {α : Type} [DecidableEq α] (st : EvStore α)
    (eid : Nat) (h : alookup st.index eid = none) :
    replayEventsAfter st eid = ([], none) := by
  unfold replayEventsAfter
  rw [h]

/-! # Claim theorems: replay and capacity -/

/-- C1: in any store satisfying the invariant (which every reachable
store does), for a live stream whose retained events are es in insertion
order, replay_events_after at the cursor at position k emits exactly the
suffix after k via the callback, once per event and strictly in order,
and returns the id of the last emitted event (none when the cursor is
the final event, where nothing is emitted); a cursor id not present in
the store emits nothing; both branches return normally, so no exception
is raised. -/
theorem claim1_replay_completeness (st : EvStore Nat) (hinv : StoreInv st)
    (s : String) (es : List (EventEntry Nat))
    (hs : alookup st.streams s = some es) :
    (∀ k, ∀ hk : k < es.length,
        replayEventsAfter st (es.get ⟨k, hk⟩).event_id
          = ((es.drop (k + 1)).map toMsg,
             ((es.drop (k + 1)).map EventEntry.event_id).getLast?)) ∧
    (∀ eid, alookup st.index eid = none →
        replayEventsAfter st eid = ([], none)) :=
  ⟨fun k hk => replayEventsAfter_spec st hinv s es hs k hk,
   fun eid h => replayEventsAfter_unknown st eid h⟩

/-- Witness for C1: a three-event stream replayed from the first event
yields the second and third events in order with the id of the third
returned, and an unknown cursor yields nothing. -/
theorem claim1_witness :
    replayEventsAfter (runOps (initStore Nat 10 10)
        [EvOp.store "s" 5 0, EvOp.store "s" 6 1, EvOp.store "s" 7 2]) 0
      = ([⟨1, "s", 6⟩, ⟨2, "s", 7⟩], some 2) ∧
    replayEventsAfter (runOps (initStore Nat 10 10)
        [EvOp.store "s" 5 0, EvOp.store "s" 6 1, EvOp.store "s" 7 2]) 99
      = ([], none) := by
  have h := claim1_replay_completeness
    (runOps (initStore Nat 10 10)
      [EvOp.store "s" 5 0, EvOp.store "s" 6 1, EvOp.store "s" 7 2])
    (by decide) "s"
    [⟨0, "s", 5, 0⟩, ⟨1, "s", 6, 1⟩, ⟨2, "s", 7, 2⟩] (by decide)
  exact ⟨h.1 0 (by decide), h.2 99 (by decide)⟩

/-- C2: after any sequence of store_event, remove_stream,
prune_old_streams (and create_stream) operations from a fresh store,
every live stream retains at most max_events_per_stream events, every
retained event is present in the global index under its own id, and
every index entry refers to a retained event of a live stream: the index
is exactly the union of the live streams, with no entry for an evicted
event or a removed stream. -/
theorem claim2_capacity_and_index_exact (maxE maxS : Nat)
    (ops : List (EvOp Nat)) :
    (∀ p ∈ (runOps (initStore Nat maxE maxS) ops).streams,
        p.2.length ≤ (runOps (initStore Nat maxE maxS) ops).maxE) ∧
    (∀ p ∈ (runOps (initStore Nat maxE maxS) ops).streams, ∀ e ∈ p.2,
        alookup (runOps (initStore Nat maxE maxS) ops).index e.event_id
          = some e) ∧
    (∀ q ∈ (runOps (initStore Nat maxE maxS) ops).index,
        ∃ p ∈ (runOps (initStore Nat maxE maxS) ops).streams,
          q.2 ∈ p.2 ∧ q.2.event_id = q.1) := by
  have h := storeInv_runOps (initStore Nat maxE maxS) ops
    (storeInv_initStore maxE maxS)
  obtain ⟨_, _, _, _, _, h6, _, _, _, h10, h11⟩ := h
  exact ⟨h6, h10, h11⟩

/-! # Stream-count behaviour of store_event and create_stream -/

theorem length_storeEventBody {α : Type} [DecidableEq α] (st : EvStore α)
    (sid : String) (msg : α) (now : Int) :
    (storeEventBody st sid msg now).1.streams.length
      = if (alookup st.streams sid).isNone then st.streams.length + 1
        else st.streams.length := by
  rcases hnew : alookup st.streams sid with _ | es
  · have hnk : sid ∉ akeys st.streams := (alookup_eq_none_iff _ _).mp hnew
    by_cases h0 : st.maxE = 0
    · rw [storeEventBody_new_err st sid msg now hnew h0]
      simp [length_aset_not_mem _ _ _ hnk]
    · rw [storeEventBody_new_eq st sid msg now hnew h0]
      simp [length_aset_not_mem _ _ _ hnk]
  · have hk : sid ∈ akeys st.streams :=
      (alookup_isSome_iff _ _).mp (by simp [hnew])
    by_cases hfull : es.length = st.maxE
    · cases es with
      | nil =>
        rw [storeEventBody_existing_err st sid msg now hnew
          (by simpa using hfull.symm)]
        simp [hnew]
      | cons oldest rest =>
        rw [storeEventBody_existing_full st sid msg now oldest rest hnew hfull]
        simp [length_aset_mem _ _ _ hk, hnew]
    · rw [storeEventBody_existing_notfull st sid msg now es hnew hfull]
      simp [length_aset_mem _ _ _ hk, hnew]

theorem removeStreamState_streams {α : Type} [DecidableEq α] (st : EvStore α)
    (sid : String) (es : List (EventEntry α))
    (hes : alookup st.streams sid = some es) :
    (removeStreamState st sid).streams = aerase st.streams sid := by
  simp [removeStreamState, hes]

theorem streamCount_storeEvent {α : Type} [DecidableEq α] (st : EvStore α)
    (sid : String) (msg : α) (now : Int)
    (hcap : st.streams.length ≤ st.maxS) :
    (storeEvent st sid msg now).1.streams.length ≤ st.maxS := by
  unfold storeEvent
  by_cases hg : st.maxS ≤ st.streams.length ∧ (alookup st.streams sid).isNone
  · rw [if_pos hg]
    rcases hmin : minByVal (akeys st.streams) (laOf st) with _ | victim
    · exact hcap
    · have hvmem : victim ∈ akeys st.streams := (minByVal_spec _ _ _ hmin).1
      have hvsome : (alookup st.streams victim).isSome :=
        (alookup_isSome_iff _ _).mpr hvmem
      rcases hv : alookup st.streams victim with _ | esv
      · rw [hv] at hvsome
        simp at hvsome
      · have hsn : alookup st.streams sid = none := by
          rcases h : alookup st.streams sid with _ | es2
          · rfl
          · rw [h] at hg
            simp at hg
        have hne : sid ≠ victim := by
          intro he
          rw [he, hv] at hsn
          exact Option.noConfusion hsn
        have hstill : alookup (removeStreamState st victim).streams sid = none := by
          rw [removeStreamState_streams st victim esv hv,
            alookup_aerase_ne _ _ _ hne]
          exact hsn
        rw [length_storeEventBody, if_pos (by simp [hstill])]
        rw [removeStreamState_streams st victim esv hv]
        have := length_aerase_mem st.streams victim hvmem
        omega
  · rw [if_neg hg]
    rw [length_storeEventBody]
    rcases h : alookup st.streams sid with _ | es2
    · simp only [h, Option.isNone_none, if_true]
      have hlt : ¬st.maxS ≤ st.streams.length := by
        intro hle
        exact hg ⟨hle, by simp [h]⟩
      omega
    · simp only [h, Option.isNone_some, Bool.false_eq_true, if_false]
      exact hcap

theorem streamCount_createStream {α : Type} [DecidableEq α] (st : EvStore α)
    (sid : String) (now : Int) (hnew : alookup st.streams sid = none) :
    (createStream st sid now).1.streams.length = st.streams.length + 1 := by
  unfold createStream
  rw [if_neg (by simp [hnew])]
  exact length_aset_not_mem _ _ _ ((alookup_eq_none_iff _ _).mp hnew)

theorem storeEvent_evicts_lru {α : Type} [DecidableEq α] (st : EvStore α)
    (sid : String) (msg : α) (now : Int) (v : String)
    (esv : List (EventEntry α)) (hinv : StoreInv st)
    (hnew : alookup st.streams sid = none)
    (hfullS : st.maxS ≤ st.streams.length)
    (hmin : minByVal (akeys st.streams) (laOf st) = some v)
    (hesv : alookup st.streams v = some esv) :
    (∀ s ∈ akeys st.streams, laOf st v ≤ laOf st s) ∧
    akeys (storeEvent st sid msg now).1.streams
      = ((akeys st.streams).erase v) ++ [sid] ∧
    (∀ e ∈ esv, alookup (storeEvent st sid msg now).1.index e.event_id = none) ∧
    (storeEvent st sid msg now).1.streams.length = st.streams.length := by
  obtain ⟨h1, h2, h3, h4, h5, h6, h7, h8, h9, h10, h11⟩ := hinv
  have hvmem : (v, esv) ∈ st.streams := alookup_mem hesv
  have hvkeys : v ∈ akeys st.streams := List.mem_map_of_mem Prod.fst hvmem
  have hg : st.maxS ≤ st.streams.length ∧ (alookup st.streams sid).isNone :=
    ⟨hfullS, by simp [hnew]⟩
  have hne : sid ≠ v := by
    intro he
    rw [he, hesv] at hnew
    exact Option.noConfusion hnew
  have hres : (storeEvent st sid msg now).1
      = (storeEventBody (removeStreamState st v) sid msg now).1 := by
    unfold storeEvent
    rw [if_pos hg, hmin]
  have hstreams1 : (removeStreamState st v).streams = aerase st.streams v :=
    removeStreamState_streams st v esv hesv
  have hindex1 : (removeStreamState st v).index
      = esv.foldl (fun ix e => aerase ix e.event_id) st.index := by
    simp [removeStreamState, hesv]
  have hnid1 : (removeStreamState st v).nextId = st.nextId := by
    simp [removeStreamState, hesv]
  have hstill : alookup (removeStreamState st v).streams sid = none := by
    rw [hstreams1, alookup_aerase_ne _ _ _ hne]
    exact hnew
  have hsnk : sid ∉ akeys (removeStreamState st v).streams :=
    (alookup_eq_none_iff _ _).mp hstill
  have hkeys2 : akeys (removeStreamState st v).streams
      = (akeys st.streams).erase v := by
    rw [hstreams1, akeys_aerase]
  have hlen1 := length_aerase_mem st.streams v hvkeys
  have hfold : ∀ e ∈ esv,
      alookup (removeStreamState st v).index e.event_id = none := by
    intro e he
    rw [hindex1]
    exact alookup_eraseFold_mem esv EventEntry.event_id st.index e.event_id h3
      (List.mem_map_of_mem EventEntry.event_id he)
  refine ⟨(minByVal_spec _ _ _ hmin).2, ?_, ?_, ?_⟩
  · rw [hres]
    by_cases h0 : (removeStreamState st v).maxE = 0
    · rw [storeEventBody_new_err _ sid msg now hstill h0]
      show akeys (aset (removeStreamState st v).streams sid []) = _
      rw [akeys_aset_not_mem _ _ _ hsnk, hkeys2]
    · rw [storeEventBody_new_eq _ sid msg now hstill h0]
      show akeys (aset (removeStreamState st v).streams sid _) = _
      rw [akeys_aset_not_mem _ _ _ hsnk, hkeys2]
  · intro e he
    have heid : e.event_id < st.nextId := h8 (v, esv) hvmem e he
    rw [hres]
    by_cases h0 : (removeStreamState st v).maxE = 0
    · rw [storeEventBody_new_err _ sid msg now hstill h0]
      show alookup (removeStreamState st v).index e.event_id = none
      exact hfold e he
    · rw [storeEventBody_new_eq _ sid msg now hstill h0]
      show alookup (aset (removeStreamState st v).index
        (removeStreamState st v).nextId _) e.event_id = none
      rw [alookup_aset_ne _ _ _ _ (by rw [hnid1]; exact Nat.ne_of_lt heid)]
      exact hfold e he
  · rw [hres, length_storeEventBody, if_pos (by simp [hstill]), hstreams1]
    omega

/-! # Claim theorems: global stream cap -/

/-- C3 counterexample: create_stream performs no max_streams check, so
with max_streams = 1 two create_stream calls leave two live streams and
the stream count exceeds the cap, refuting the claim that the count
never exceeds max_streams under sequences of store_event and
create_stream calls. -/
theorem claim3_counterexample :
    (runOps (initStore Nat 100 1) [EvOp.create "a" 0, EvOp.create "b" 0]).maxS
        = 1 ∧
    (runOps (initStore Nat 100 1)
        [EvOp.create "a" 0, EvOp.create "b" 0]).streams.length = 2 := by
  decide

/-- C3 amended: store_event never takes the stream count above
max_streams; when the count is at or above max_streams and the stream id
is new, exactly one stream with minimal last_activity (the min of the
dict, first on ties) is removed together with all its indexed events
before the new stream is admitted, leaving the count unchanged; but
create_stream performs no cap check and always adds a stream, so
sequences that include create_stream can exceed max_streams. -/
theorem claim3_amended :
    (∀ st : EvStore Nat, ∀ sid : String, ∀ msg : Nat, ∀ now : Int,
        st.streams.length ≤ st.maxS →
        (storeEvent st sid msg now).1.streams.length ≤ st.maxS) ∧
    (∀ st : EvStore Nat, ∀ sid : String, ∀ msg : Nat, ∀ now : Int,
        ∀ v : String, ∀ esv : List (EventEntry Nat), StoreInv st →
        alookup st.streams sid = none →
        st.maxS ≤ st.streams.length →
        minByVal (akeys st.streams) (laOf st) = some v →
        alookup st.streams v = some esv →
        (∀ s ∈ akeys st.streams, laOf st v ≤ laOf st s) ∧
        akeys (storeEvent st sid msg now).1.streams
          = ((akeys st.streams).erase v) ++ [sid] ∧
        (∀ e ∈ esv,
          alookup (storeEvent st sid msg now).1.index e.event_id = none) ∧
        (storeEvent st sid msg now).1.streams.length = st.streams.length) ∧
    (∀ st : EvStore Nat, ∀ sid : String, ∀ now : Int,
        alookup st.streams sid = none →
        (createStream st sid now).1.streams.length = st.streams.length + 1) :=
  ⟨fun st sid msg now h => streamCount_storeEvent st sid msg now h,
   fun st sid msg now v esv hinv hn hf hm he =>
     storeEvent_evicts_lru st sid msg now v esv hinv hn hf hm he,
   fun st sid now h => streamCount_createStream st sid now h⟩

/-- Witness for C3 amended: a store at its cap of two streams, where the
stream with the smaller last_activity is evicted when a third stream id
arrives, leaving the count at two. -/
theorem claim3_witness :
    akeys (storeEvent (runOps (initStore Nat 10 2)
        [EvOp.store "a" 0 5, EvOp.store "b" 0 3]) "c" 0 9).1.streams
      = ["a", "c"] ∧
    (storeEvent (runOps (initStore Nat 10 2)
        [EvOp.store "a" 0 5, EvOp.store "b" 0 3]) "c" 0 9).1.streams.length
      = 2 := by
  have h := claim3_amended.2.1 (runOps (initStore Nat 10 2)
      [EvOp.store "a" 0 5, EvOp.store "b" 0 3]) "c" 0 9 "b" [⟨1, "b", 0, 3⟩]
    (by decide) (by decide) (by decide) (by decide) (by decide)
  refine ⟨?_, ?_⟩
  · rw [h.2.1]
    decide
  · rw [h.2.2.2]
    decide

theorem c10_aux (maxE maxS : Nat) (hcap : 1 ≤ maxE) :
    ∀ (l : List (String × Nat × Int)) (st : EvStore Nat) (seen : List String),
    st.maxE = maxE → st.maxS = maxS →
    (akeys st.streams).Nodup →
    (∀ x : String, x ∈ akeys st.streams ↔ x ∈ seen) →
    (∀ x : String, (alookup st.streams x).isSome = (alookup st.meta x).isSome) →
    (∀ sid es m, alookup st.streams sid = some es →
        alookup st.meta sid = some m →
        m.event_count = seen.count sid ∧ es.length = min (seen.count sid) maxE) →
    (seen ++ l.map Prod.fst).toFinset.card ≤ maxS →
    ∀ sid, sid ∈ seen ++ l.map Prod.fst →
      ∃ es m,
        alookup (runOps st (l.map (fun p => EvOp.store p.1 p.2.1 p.2.2))).streams
            sid = some es ∧
        alookup (runOps st (l.map (fun p => EvOp.store p.1 p.2.1 p.2.2))).meta
            sid = some m ∧
        m.event_count = (seen ++ l.map Prod.fst).count sid ∧
        es.length = min ((seen ++ l.map Prod.fst).count sid) maxE := by
  intro l
  induction l with
  | nil =>
    intro st seen hme hms hnd hx hsm hpack hcard sid hmem
    simp only [List.map_nil, List.append_nil] at hmem hcard ⊢
    simp only [runOps, List.foldl_nil]
    have hks : sid ∈ akeys st.streams := (hx sid).mpr hmem
    have hss : (alookup st.streams sid).isSome := (alookup_isSome_iff _ _).mpr hks
    rcases hes : alookup st.streams sid with _ | es
    · rw [hes] at hss
      simp at hss
    · have hms2 : (alookup st.meta sid).isSome := by
        rw [← hsm sid, hes]
        rfl
      rcases hm : alookup st.meta sid with _ | m
      · rw [hm] at hms2
        simp at hms2
      · obtain ⟨hc, hl⟩ := hpack sid es m hes hm
        exact ⟨es, m, rfl, rfl, hc, hl⟩
  | cons p rest ih =>
    intro st seen hme hms hnd hx hsm hpack hcard sid hmem
    obtain ⟨sid0, msg0, now0⟩ := p
    have hkeyslen : st.streams.length = seen.toFinset.card := by
      have h1 : (akeys st.streams).toFinset = seen.toFinset := by
        apply Finset.ext
        intro x
        rw [List.mem_toFinset, List.mem_toFinset]
        exact hx x
      have h2 := List.toFinset_card_of_nodup hnd
      rw [h1] at h2
      simpa [akeys] using h2.symm
    -- the common invariant-transport step, shared by both branches below
    have hstep : ∀ st2 : EvStore Nat,
        (storeEvent st sid0 msg0 now0).1 = st2 →
        st2.maxE = maxE → st2.maxS = maxS →
        (akeys st2.streams).Nodup →
        (∀ x : String, x ∈ akeys st2.streams ↔ x ∈ seen ++ [sid0]) →
        (∀ x : String,
          (alookup st2.streams x).isSome = (alookup st2.meta x).isSome) →
        (∀ sid2 es m, alookup st2.streams sid2 = some es →
            alookup st2.meta sid2 = some m →
            m.event_count = (seen ++ [sid0]).count sid2 ∧
            es.length = min ((seen ++ [sid0]).count sid2) maxE) →
        ∃ es m,
          alookup (runOps st
              (((sid0, msg0, now0) :: rest).map
                (fun p => EvOp.store p.1 p.2.1 p.2.2))).streams sid = some es ∧
          alookup (runOps st
              (((sid0, msg0, now0) :: rest).map
                (fun p => EvOp.store p.1 p.2.1 p.2.2))).meta sid = some m ∧
          m.event_count = (seen ++ ((sid0, msg0, now0) :: rest).map Prod.fst).count sid ∧
          es.length
            = min ((seen ++ ((sid0, msg0, now0) :: rest).map Prod.fst).count sid) maxE := by
      intro st2 heq hme2 hms2 hnd2 hx2 hsm2 hpack2
      have hcard2 : ((seen ++ [sid0]) ++ rest.map Prod.fst).toFinset.card ≤ maxS := by
        have : (seen ++ [sid0]) ++ rest.map Prod.fst
            = seen ++ ((sid0, msg0, now0) :: rest).map Prod.fst := by
          simp
        rw [this]
        simpa using hcard
      have hmem2 : sid ∈ (seen ++ [sid0]) ++ rest.map Prod.fst := by
        have : (seen ++ [sid0]) ++ rest.map Prod.fst
            = seen ++ ((sid0, msg0, now0) :: rest).map Prod.fst := by
          simp
        rw [this]
        simpa using hmem
      have hresult := ih st2 (seen ++ [sid0]) hme2 hms2 hnd2 hx2 hsm2 hpack2
        hcard2 sid hmem2
      have hrw : runOps st
          (((sid0, msg0, now0) :: rest).map (fun p => EvOp.store p.1 p.2.1 p.2.2))
          = runOps st2 (rest.map (fun p => EvOp.store p.1 p.2.1 p.2.2)) := by
        simp only [List.map_cons, runOps, List.foldl_cons, applyOp]
        rw [heq]
      rw [hrw]
      have hcnt : ((seen ++ [sid0]) ++ rest.map Prod.fst).count sid
          = (seen ++ ((sid0, msg0, now0) :: rest).map Prod.fst).count sid := by
        simp
      rw [hcnt] at hresult
      exact hresult
    rcases hlook : alookup st.streams sid0 with _ | es0
    · -- brand-new stream id: the cap guard cannot fire (budget argument)
      have hnk : sid0 ∉ akeys st.streams := (alookup_eq_none_iff _ _).mp hlook
      have hnotseen : sid0 ∉ seen := fun h =>
        hnk ((hx sid0).mpr h)
      have hnotfin : sid0 ∉ seen.toFinset := by
        rw [List.mem_toFinset]
        exact hnotseen
      have hsub : insert sid0 seen.toFinset
          ⊆ (seen ++ ((sid0, msg0, now0) :: rest).map Prod.fst).toFinset := by
        intro x hxm
        rw [List.mem_toFinset]
        rcases Finset.mem_insert.mp hxm with h | h
        · subst h
          simp
        · rw [List.mem_toFinset] at h
          exact List.mem_append_left _ h
      have hlt : st.streams.length < maxS := by
        have h2 := Finset.card_insert_of_not_mem hnotfin
        have h3 := le_trans (Finset.card_le_card hsub) hcard
        omega
      have hguard : ¬(st.maxS ≤ st.streams.length
          ∧ (alookup st.streams sid0).isNone = true) := by
        intro hg
        rw [hms] at hg
        omega
      have h0 : st.maxE ≠ 0 := by
        rw [hme]
        omega
      have heq : (storeEvent st sid0 msg0 now0).1
          = { st with
              streams := aset st.streams sid0 [⟨st.nextId, sid0, msg0, now0⟩]
              index := aset st.index st.nextId ⟨st.nextId, sid0, msg0, now0⟩
              meta := aset st.meta sid0 ⟨now0, now0, 1⟩
              nextId := st.nextId + 1 } := by
        unfold storeEvent
        rw [if_neg hguard, storeEventBody_new_eq st sid0 msg0 now0 hlook h0]
      refine hstep _ heq hme hms (nodup_akeys_aset _ _ _ hnd) ?_ ?_ ?_
      · intro x
        show x ∈ akeys (aset st.streams sid0 [⟨st.nextId, sid0, msg0, now0⟩]) ↔ _
        rw [akeys_aset_not_mem _ _ _ hnk]
        simp [hx x]
      · intro x
        by_cases hxs : x = sid0
        · subst hxs
          show (alookup (aset st.streams x [⟨st.nextId, x, msg0, now0⟩]) x).isSome
            = (alookup (aset st.meta x ⟨now0, now0, 1⟩) x).isSome
          simp [alookup_aset_self]
        · show (alookup (aset st.streams sid0 [⟨st.nextId, sid0, msg0, now0⟩]) x).isSome
            = (alookup (aset st.meta sid0 ⟨now0, now0, 1⟩) x).isSome
          rw [alookup_aset_ne _ _ _ _ hxs, alookup_aset_ne _ _ _ _ hxs]
          exact hsm x
      · intro sid2 es2 m2 hes2 hm2
        by_cases hxs : sid2 = sid0
        · subst hxs
          rw [show ({ st with
              streams := aset st.streams sid2 [⟨st.nextId, sid2, msg0, now0⟩]
              index := aset st.index st.nextId ⟨st.nextId, sid2, msg0, now0⟩
              meta := aset st.meta sid2 ⟨now0, now0, 1⟩
              nextId := st.nextId + 1 } : EvStore Nat).streams
            = aset st.streams sid2 [⟨st.nextId, sid2, msg0, now0⟩] from rfl,
            alookup_aset_self] at hes2
          rw [show ({ st with
              streams := aset st.streams sid2 [⟨st.nextId, sid2, msg0, now0⟩]
              index := aset st.index st.nextId ⟨st.nextId, sid2, msg0, now0⟩
              meta := aset st.meta sid2 ⟨now0, now0, 1⟩
              nextId := st.nextId + 1 } : EvStore Nat).meta
            = aset st.meta sid2 ⟨now0, now0, 1⟩ from rfl,
            alookup_aset_self] at hm2
          have he2 : es2 = [⟨st.nextId, sid2, msg0, now0⟩] := (Option.some.inj hes2).symm
          have hm2v : m2 = ⟨now0, now0, 1⟩ := (Option.some.inj hm2).symm
          have hcnt0 : (seen ++ [sid2]).count sid2 = 1 := by
            simp [List.count_append, List.count_eq_zero.mpr hnotseen]
          rw [he2, hm2v, hcnt0]
          exact ⟨rfl, (Nat.min_eq_left hcap).symm⟩
        · rw [show ({ st with
              streams := aset st.streams sid0 [⟨st.nextId, sid0, msg0, now0⟩]
              index := aset st.index st.nextId ⟨st.nextId, sid0, msg0, now0⟩
              meta := aset st.meta sid0 ⟨now0, now0, 1⟩
              nextId := st.nextId + 1 } : EvStore Nat).streams
            = aset st.streams sid0 [⟨st.nextId, sid0, msg0, now0⟩] from rfl,
            alookup_aset_ne _ _ _ _ hxs] at hes2
          rw [show ({ st with
              streams := aset st.streams sid0 [⟨st.nextId, sid0, msg0, now0⟩]
              index := aset st.index st.nextId ⟨st.nextId, sid0, msg0, now0⟩
              meta := aset st.meta sid0 ⟨now0, now0, 1⟩
              nextId := st.nextId + 1 } : EvStore Nat).meta
            = aset st.meta sid0 ⟨now0, now0, 1⟩ from rfl,
            alookup_aset_ne _ _ _ _ hxs] at hm2
          have hcnt2 : (seen ++ [sid0]).count sid2 = seen.count sid2 := by
            simp [List.count_append, List.count_singleton]
            intro he
            exact absurd he.symm hxs
          rw [hcnt2]
          exact hpack sid2 es2 m2 hes2 hm2
    · -- existing stream id: the guard cannot fire either (id not new)
      have hguard : ¬(st.maxS ≤ st.streams.length
          ∧ (alookup st.streams sid0).isNone = true) := by
        intro hg
        rw [hlook] at hg
        simp at hg
      have hks0 : sid0 ∈ akeys st.streams :=
        (alookup_isSome_iff _ _).mp (by simp [hlook])
      have hsid0seen : sid0 ∈ seen := (hx sid0).mp hks0
      have hms0 : (alookup st.meta sid0).isSome = true := by
        rw [← hsm sid0, hlook]
        rfl
      rcases hm0 : alookup st.meta sid0 with _ | m0
      · rw [hm0] at hms0
        simp at hms0
      · obtain ⟨hc0, hl0⟩ := hpack sid0 es0 m0 hlook hm0
        have hx2 : ∀ x : String,
            x ∈ akeys st.streams ↔ x ∈ seen ++ [sid0] := by
          intro x
          rw [hx x]
          constructor
          · exact fun h => List.mem_append_left _ h
          · intro h
            rcases List.mem_append.mp h with h | h
            · exact h
            · simp at h
              subst h
              exact hsid0seen
        have hcnt0 : (seen ++ [sid0]).count sid0 = seen.count sid0 + 1 := by
          simp [List.count_append]
        have hcnt2 : ∀ sid2, sid2 ≠ sid0 →
            (seen ++ [sid0]).count sid2 = seen.count sid2 := by
          intro sid2 hxs
          simp [List.count_append, List.count_singleton]
          intro he
          exact absurd he.symm hxs
        by_cases hfull : es0.length = st.maxE
        · cases es0 with
          | nil =>
            exfalso
            simp only [List.length_nil] at hfull
            rw [hme] at hfull
            omega
          | cons oldest rest0 =>
            have hcm : maxE ≤ seen.count sid0 := by
              rcases Nat.le_total maxE (seen.count sid0) with h | h
              · exact h
              · rw [Nat.min_eq_left h] at hl0
                rw [hme] at hfull
                omega
            have heq : (storeEvent st sid0 msg0 now0).1
                = { st with
                    streams := aset st.streams sid0
                      (rest0 ++ [⟨st.nextId, sid0, msg0, now0⟩])
                    index := aset (aerase st.index oldest.event_id) st.nextId
                      ⟨st.nextId, sid0, msg0, now0⟩
                    meta := aset st.meta sid0
                      { m0 with last_activity := now0
                                event_count := m0.event_count + 1 }
                    nextId := st.nextId + 1 } := by
              unfold storeEvent
              rw [if_neg hguard,
                storeEventBody_existing_full st sid0 msg0 now0 oldest rest0 hlook hfull]
              simp [hm0]
            refine hstep _ heq hme hms (nodup_akeys_aset _ _ _ hnd) ?_ ?_ ?_
            · intro x
              show x ∈ akeys (aset st.streams sid0
                (rest0 ++ [⟨st.nextId, sid0, msg0, now0⟩])) ↔ _
              rw [akeys_aset_mem _ _ _ hks0]
              exact hx2 x
            · intro x
              by_cases hxs : x = sid0
              · subst hxs
                show (alookup (aset st.streams x
                    (rest0 ++ [⟨st.nextId, x, msg0, now0⟩])) x).isSome
                  = (alookup (aset st.meta x
                    { m0 with last_activity := now0
                              event_count := m0.event_count + 1 }) x).isSome
                simp [alookup_aset_self]
              · show (alookup (aset st.streams sid0
                    (rest0 ++ [⟨st.nextId, sid0, msg0, now0⟩])) x).isSome
                  = (alookup (aset st.meta sid0
                    { m0 with last_activity := now0
                              event_count := m0.event_count + 1 }) x).isSome
                rw [alookup_aset_ne _ _ _ _ hxs, alookup_aset_ne _ _ _ _ hxs]
                exact hsm x
            · intro sid2 es2 m2 hes2 hm2
              by_cases hxs : sid2 = sid0
              · subst hxs
                have hes3 : alookup (aset st.streams sid2
                    (rest0 ++ [⟨st.nextId, sid2, msg0, now0⟩])) sid2 = some es2 := hes2
                have hm3 : alookup (aset st.meta sid2
                    { m0 with last_activity := now0
                              event_count := m0.event_count + 1 }) sid2 = some m2 := hm2
                rw [alookup_aset_self] at hes3 hm3
                have he2 : es2 = rest0 ++ [⟨st.nextId, sid2, msg0, now0⟩] :=
                  (Option.some.inj hes3).symm
                have hm2v : m2 = { m0 with last_activity := now0
                                           event_count := m0.event_count + 1 } :=
                  (Option.some.inj hm3).symm
                rw [he2, hm2v, hcnt0]
                refine ⟨by simp [hc0], ?_⟩
                rw [Nat.min_eq_right (by omega)]
                simp only [List.length_cons] at hfull
                rw [hme] at hfull
                simp [List.length_append]
                omega
              · have hes3 : alookup (aset st.streams sid0
                    (rest0 ++ [⟨st.nextId, sid0, msg0, now0⟩])) sid2 = some es2 := hes2
                have hm3 : alookup (aset st.meta sid0
                    { m0 with last_activity := now0
                              event_count := m0.event_count + 1 }) sid2 = some m2 := hm2
                rw [alookup_aset_ne _ _ _ _ hxs] at hes3 hm3
                rw [hcnt2 sid2 hxs]
                exact hpack sid2 es2 m2 hes3 hm3
        · have hcm : seen.count sid0 < maxE := by
            rcases Nat.lt_or_ge (seen.count sid0) maxE with h | h
            · exact h
            · exfalso
              rw [Nat.min_eq_right h] at hl0
              rw [hme] at hfull
              exact hfull hl0
          have hlc : es0.length = seen.count sid0 := by
            rw [Nat.min_eq_left (le_of_lt hcm)] at hl0
            exact hl0
          have heq : (storeEvent st sid0 msg0 now0).1
              = { st with
                  streams := aset st.streams sid0
                    (es0 ++ [⟨st.nextId, sid0, msg0, now0⟩])
                  index := aset st.index st.nextId ⟨st.nextId, sid0, msg0, now0⟩
                  meta := aset st.meta sid0
                    { m0 with last_activity := now0
                              event_count := m0.event_count + 1 }
                  nextId := st.nextId + 1 } := by
            unfold storeEvent
            rw [if_neg hguard,
              storeEventBody_existing_notfull st sid0 msg0 now0 es0 hlook hfull]
            simp [hm0]
          refine hstep _ heq hme hms (nodup_akeys_aset _ _ _ hnd) ?_ ?_ ?_
          · intro x
            show x ∈ akeys (aset st.streams sid0
              (es0 ++ [⟨st.nextId, sid0, msg0, now0⟩])) ↔ _
            rw [akeys_aset_mem _ _ _ hks0]
            exact hx2 x
          · intro x
            by_cases hxs : x = sid0
            · subst hxs
              show (alookup (aset st.streams x
                  (es0 ++ [⟨st.nextId, x, msg0, now0⟩])) x).isSome
                = (alookup (aset st.meta x
                  { m0 with last_activity := now0
                            event_count := m0.event_count + 1 }) x).isSome
              simp [alookup_aset_self]
            · show (alookup (aset st.streams sid0
                  (es0 ++ [⟨st.nextId, sid0, msg0, now0⟩])) x).isSome
                = (alookup (aset st.meta sid0
                  { m0 with last_activity := now0
                            event_count := m0.event_count + 1 }) x).isSome
              rw [alookup_aset_ne _ _ _ _ hxs, alookup_aset_ne _ _ _ _ hxs]
              exact hsm x
          · intro sid2 es2 m2 hes2 hm2
            by_cases hxs : sid2 = sid0
            · subst hxs
              have hes3 : alookup (aset st.streams sid2
                  (es0 ++ [⟨st.nextId, sid2, msg0, now0⟩])) sid2 = some es2 := hes2
              have hm3 : alookup (aset st.meta sid2
                  { m0 with last_activity := now0
                            event_count := m0.event_count + 1 }) sid2 = some m2 := hm2
              rw [alookup_aset_self] at hes3 hm3
              have he2 : es2 = es0 ++ [⟨st.nextId, sid2, msg0, now0⟩] :=
                (Option.some.inj hes3).symm
              have hm2v : m2 = { m0 with last_activity := now0
                                         event_count := m0.event_count + 1 } :=
                (Option.some.inj hm3).symm
              rw [he2, hm2v, hcnt0]
              refine ⟨by simp [hc0], ?_⟩
              rw [Nat.min_eq_left (by omega)]
              simp [List.length_append]
              omega
            · have hes3 : alookup (aset st.streams sid0
                  (es0 ++ [⟨st.nextId, sid0, msg0, now0⟩])) sid2 = some es2 := hes2
              have hm3 : alookup (aset st.meta sid0
                  { m0 with last_activity := now0
                            event_count := m0.event_count + 1 }) sid2 = some m2 := hm2
              rw [alookup_aset_ne _ _ _ _ hxs] at hes3 hm3
              rw [hcnt2 sid2 hxs]
              exact hpack sid2 es2 m2 hes3 hm3

/-! # Claim theorems: event_count accounting -/

/-- C10: along any sequence of store_event calls from a fresh store
whose distinct stream ids fit within max_streams (so no stream is
evicted and each stored-to stream was created at its first store) and
with positive per-stream capacity, every stored-to stream's event_count
equals the total number of events ever stored to it since creation,
while the retained sequence holds min(count, capacity) events: capacity
eviction never decrements event_count, so event_count always bounds the
retained length from above and strictly exceeds it once the total
passes the capacity. -/
theorem claim10_event_count_total (maxE maxS : Nat)
    (l : List (String × Nat × Int)) (sid : String) (hcap : 1 ≤ maxE)
    (hdist : ((l.map Prod.fst).toFinset).card ≤ maxS)
    (hmem : sid ∈ l.map Prod.fst) :
    ∃ es m,
      alookup (runOps (initStore Nat maxE maxS)
          (l.map (fun p => EvOp.store p.1 p.2.1 p.2.2))).streams sid
        = some es ∧
      alookup (runOps (initStore Nat maxE maxS)
          (l.map (fun p => EvOp.store p.1 p.2.1 p.2.2))).meta sid
        = some m ∧
      m.event_count = (l.map Prod.fst).count sid ∧
      es.length = min ((l.map Prod.fst).count sid) maxE ∧
      es.length ≤ m.event_count ∧
      (maxE < (l.map Prod.fst).count sid → es.length < m.event_count) := by
  have h := c10_aux maxE maxS hcap l (initStore Nat maxE maxS) []
    rfl rfl (by simp [initStore, akeys]) (by simp [initStore, akeys])
    (by intro x; simp [initStore, alookup])
    (by intro s es m h1 h2; simp [initStore, alookup] at h1)
    (by simpa using hdist) sid (by simpa using hmem)
  obtain ⟨es, m, h1, h2, h3, h4⟩ := h
  have h3b : m.event_count = (l.map Prod.fst).count sid := by simpa using h3
  have h4b : es.length = min ((l.map Prod.fst).count sid) maxE := by
    simpa using h4
  refine ⟨es, m, h1, h2, h3b, h4b, ?_, ?_⟩
  · rw [h4b, h3b]
    exact Nat.min_le_left _ _
  · intro hlt
    rw [h4b, h3b, Nat.min_eq_right (le_of_lt hlt)]
    exact hlt

/-- Witness for C10: two events stored to one stream with capacity one;
the stream retains one event while event_count reads two. -/
theorem claim10_witness :
    ∃ es m,
      alookup (runOps (initStore Nat 1 2)
          (([("s", 5, 0), ("s", 6, 1)] : List (String × Nat × Int)).map
            (fun p => EvOp.store p.1 p.2.1 p.2.2))).streams "s" = some es ∧
      alookup (runOps (initStore Nat 1 2)
          (([("s", 5, 0), ("s", 6, 1)] : List (String × Nat × Int)).map
            (fun p => EvOp.store p.1 p.2.1 p.2.2))).meta "s" = some m ∧
      m.event_count
        = (([("s", 5, 0), ("s", 6, 1)] : List (String × Nat × Int)).map
            Prod.fst).count "s" ∧
      es.length
        = min ((([("s", 5, 0), ("s", 6, 1)] : List (String × Nat × Int)).map
            Prod.fst).count "s") 1 ∧
      es.length ≤ m.event_count ∧
      (1 < (([("s", 5, 0), ("s", 6, 1)] : List (String × Nat × Int)).map
          Prod.fst).count "s" → es.length < m.event_count) :=
  claim10_event_count_total 1 2 [("s", 5, 0), ("s", 6, 1)] "s"
    (by decide) (by decide) (by decide)

/-! # Claim theorems: get_stream_events limit -/

/-- C9 evidence: get_stream_events evaluated at the failing input.  A
stream holding one retained event queried with limit 0 returns the whole
list rather than at most zero records, because the Python tail slice
with argument -0 is the full list; this contradicts the documented
meaning of limit (the maximum number of events returned, None being the
explicit all sentinel).  For contrast, limit 1 on a two-event stream
returns exactly the most recent event. -/
theorem claim9_limit_zero_returns_all :
    getStreamEvents (runOps (initStore Nat 100 10) [EvOp.store "s1" 7 0])
        "s1" (some 0) = [⟨0, "s1", 7⟩] ∧
    (getStreamEvents (runOps (initStore Nat 100 10) [EvOp.store "s1" 7 0])
        "s1" (some 0)).length = 1 ∧
    getStreamEvents (runOps (initStore Nat 100 10)
        [EvOp.store "s1" 7 0, EvOp.store "s1" 8 1]) "s1" (some 1)
      = [⟨1, "s1", 8⟩] := by
  decide

/-! # Claim theorems: notification silence on POST -/

theorem handleToolCall_error (ev : EvStore Nat) (sid : String)
    (req : RpcRequest) (em : String) (now : Int) :
    ∃ msg, handleToolCall ev sid req (Except.error em) now
      = (ev, Except.error msg) := by
  unfold handleToolCall
  rcases h : req.toolName with _ | n
  · exact ⟨_, rfl⟩
  · by_cases hn : n = ""
    · exact ⟨"Tool name is required", by simp [hn]⟩
    · exact ⟨"Error calling tool " ++ n ++ ": " ++ em, by simp [hn]⟩

/-- C4: a POST carrying method tools/call and no id (a notification)
whose tool handling raises an exception produces no JSONRPCError on any
channel: the adapter finishes the request with an empty JSON object body
in JSON mode or when no SSE channel is attached, and with an empty body
otherwise. -/
theorem claim4_notification_silence (ev : EvStore Nat) (sid : String)
    (jr hasSse : Bool) (req : RpcRequest) (em : String) (now : Int)
    (hm : req.rmethod = some "tools/call") (hid : req.rid = none) :
    ((handlePost ev sid jr hasSse req (Except.error em) now).2
        = PostResult.emptyJsonBody ∨
     (handlePost ev sid jr hasSse req (Except.error em) now).2
        = PostResult.plainFinish) ∧
    isErrorEnvelope
      (handlePost ev sid jr hasSse req (Except.error em) now).2 = false := by
  obtain ⟨msg, hmsg⟩ := handleToolCall_error ev sid req em now
  have hres : (handlePost ev sid jr hasSse req (Except.error em) now).2
      = postErrorPath jr hasSse req.rid msg := by
    unfold handlePost
    rw [if_pos hm, hmsg]
  rw [hres, hid]
  unfold postErrorPath
  by_cases hb : (jr || !hasSse) = true
  · rw [if_pos hb]
    exact ⟨Or.inl rfl, rfl⟩
  · rw [if_neg hb]
    exact ⟨Or.inr rfl, rfl⟩

/-- Witness for C4: a concrete raising notification tool call finished
with an empty JSON body and no error envelope. -/
theorem claim4_witness :
    ((handlePost (initStore Nat 100 1000) "sess" true false
        ⟨some "tools/call", none, some "update_cell"⟩
        (Except.error "boom") 0).2 = PostResult.emptyJsonBody ∨
     (handlePost (initStore Nat 100 1000) "sess" true false
        ⟨some "tools/call", none, some "update_cell"⟩
        (Except.error "boom") 0).2 = PostResult.plainFinish) ∧
    isErrorEnvelope (handlePost (initStore Nat 100 1000) "sess" true false
        ⟨some "tools/call", none, some "update_cell"⟩
        (Except.error "boom") 0).2 = false :=
  claim4_notification_silence (initStore Nat 100 1000) "sess" true false
    ⟨some "tools/call", none, some "update_cell"⟩ "boom" 0 rfl rfl

/-! # Claim theorems: DELETE handling -/

/-- C5 counterexample: a DELETE presenting a session id that does not
exist in the registry is answered 200 Session ended, not a
404-equivalent error, refuting the claim that an unknown named session
yields 404. -/
theorem claim5_counterexample :
    alookup (SMState.mk [] []).sessions "x" = none ∧
    (handleDelete (SMState.mk [] []) (some "x") 0).2.1 = 200 ∧
    (handleDelete (SMState.mk [] []) (some "x") 0).2.1 ≠ 404 := by
  decide

/-- C5 amended: DELETE resolves the session id from the header; any
non-empty presented value has end_session invoked on it (a no-op for
unknown ids) and is answered 200 Session ended without any registry
check; the 404 Session not found response occurs exactly when the
header is absent or empty. -/
theorem claim5_amended (st : SMState) (now : Int) :
    handleDelete st none now = (st, 404, "Session not found") ∧
    handleDelete st (some "") now = (st, 404, "Session not found") ∧
    (∀ s : String, s ≠ "" →
        handleDelete st (some s) now
          = (endSession st s now, 200, "Session ended")) := by
  refine ⟨rfl, by simp [handleDelete], ?_⟩
  intro s hs
  simp [handleDelete, hs]

/-- Witness for C5 amended: deleting with an unknown non-empty session
id ends up in the success branch on a concrete registry. -/
theorem claim5_witness :
    handleDelete (SMState.mk [("s", ⟨some "active", 0, none⟩)] [])
        (some "x") 1
      = (endSession (SMState.mk [("s", ⟨some "active", 0, none⟩)] []) "x" 1,
         200, "Session ended") :=
  (claim5_amended (SMState.mk [("s", ⟨some "active", 0, none⟩)] []) 1).2.2
    "x" (by decide)

/-! # Claim theorems: session resolution -/

/-- C6 counterexample: a request presenting an unknown session id gets
that id back verbatim while the registry stays empty — no session record
is registered for the presented identifier — refuting the claim that
the first request bearing an identifier leaves a fresh active record
registered for it. -/
theorem claim6_counterexample :
    (getOrCreateSessionId (SMState.mk [] []) (some "s") "fresh" 0).1 = "s" ∧
    (getOrCreateSessionId (SMState.mk [] []) (some "s") "fresh" 0).2.sessions
      = [] ∧
    alookup (getOrCreateSessionId (SMState.mk [] [])
        (some "s") "fresh" 0).2.sessions "s" = none := by
  decide

/-- C6 amended: session resolution returns any non-empty presented id
verbatim without consulting the registry and registers nothing for it —
an id naming an ended or unknown session keeps being used as-is and an
ended identifier is never re-registered as active; only when the header
is absent or empty is the freshly minted id returned, with a record
holding only created_at (no status field) registered under it. -/
theorem claim6_amended (st : SMState) (freshId : String) (now : Int) :
    (∀ s : String, s ≠ "" →
        getOrCreateSessionId st (some s) freshId now = (s, st)) ∧
    getOrCreateSessionId st none freshId now
      = (freshId,
         { st with sessions := aset st.sessions freshId ⟨none, now, none⟩ }) ∧
    getOrCreateSessionId st (some "") freshId now
      = (freshId,
         { st with sessions := aset st.sessions freshId ⟨none, now, none⟩ }) := by
  refine ⟨?_, rfl, by simp [getOrCreateSessionId]⟩
  intro s hs
  simp [getOrCreateSessionId, hs]

/-- Witness for C6 amended: an ended session id presented by the client
is reused unchanged, with the registry record left in status ended. -/
theorem claim6_witness :
    getOrCreateSessionId (SMState.mk [("s", ⟨some "ended", 0, some 1⟩)] [])
        (some "s") "f" 2
      = ("s", SMState.mk [("s", ⟨some "ended", 0, some 1⟩)] []) :=
  (claim6_amended (SMState.mk [("s", ⟨some "ended", 0, some 1⟩)] []) "f" 2).1
    "s" (by decide)

/-! # Claim theorems: end_session idempotence -/

theorem filter_ne_idem (l : List String) (sid : String) :
    (l.filter (fun x => x ≠ sid)).filter (fun x => x ≠ sid)
      = l.filter (fun x => x ≠ sid) := by
  induction l with
  | nil => rfl
  | cons a rest ih =>
    by_cases h : a = sid
    · simp [List.filter_cons, h, ih]
    · simp [List.filter_cons, h, ih]

/-- C7 counterexample: ending the same session twice at different times
does not reproduce the state of ending it once — the second call
overwrites ended_at with the later time — refuting the claim that the
recorded ended_at timestamp is preserved. -/
theorem claim7_counterexample :
    endSession (endSession
        (SMState.mk [("s", ⟨some "active", 0, none⟩)] []) "s" 1) "s" 2
      ≠ endSession (SMState.mk [("s", ⟨some "active", 0, none⟩)] []) "s" 1 := by
  decide

/-- C7 amended: end_session is absorptive rather than strictly
idempotent: a second call produces exactly the state of a single call
made at the later time, so the status stays ended and no exception is
raised, but ended_at is overwritten with the time of the second call;
end_session on an unknown session id is a no-op. -/
theorem claim7_amended (st : SMState) (sid : String) (t1 t2 : Int) :
    endSession (endSession st sid t1) sid t2 = endSession st sid t2 ∧
    (alookup st.sessions sid = none → endSession st sid t1 = st) := by
  constructor
  · rcases h : alookup st.sessions sid with _ | r
    · have h1 : endSession st sid t1 = st := by
        simp [endSession, h]
      rw [h1]
    · have e1 : endSession st sid t1
          = ⟨aset st.sessions sid ⟨some "ended", r.created_at, some t1⟩,
             st.sse.filter (fun x => x ≠ sid)⟩ := by
        simp [endSession, h]
      have e2 : endSession st sid t2
          = ⟨aset st.sessions sid ⟨some "ended", r.created_at, some t2⟩,
             st.sse.filter (fun x => x ≠ sid)⟩ := by
        simp [endSession, h]
      rw [e1, e2]
      simp [endSession, alookup_aset_self, aset_aset, filter_ne_idem]
  · intro h
    simp [endSession, h]

/-- Witness for C7 amended: a concrete double end at times 1 and 2
collapses to the single end at time 2, and ending an unknown id leaves
the empty registry untouched. -/
theorem claim7_witness :
    endSession (endSession
        (SMState.mk [("s", ⟨some "active", 0, none⟩)] ["s"]) "s" 1) "s" 2
      = endSession (SMState.mk [("s", ⟨some "active", 0, none⟩)] ["s"]) "s" 2 ∧
    endSession (SMState.mk [] []) "q" 1 = SMState.mk [] [] :=
  ⟨(claim7_amended (SMState.mk [("s", ⟨some "active", 0, none⟩)] ["s"])
      "s" 1 2).1,
   (claim7_amended (SMState.mk [] []) "q" 1 2).2 (by decide)⟩

/-! # Claim theorems: malformed JSON rejection -/

/-- C8: a POST whose body is not valid JSON is rejected with status 400
before reaching any dispatch: the response is the client error and the
full server state (session registry and event store) is unchanged,
independently of the tool-call outcome — so no tool is invoked, no
event is stored and no session-registry mutation occurs for the
request. -/
theorem claim8_malformed_json (s : ServerState) (r : HttpReq)
    (freshSid : String) (now : Int) (jr : Bool)
    (callRes : Except String Nat)
    (hm : r.hmethod = "POST") (hp : r.parsed = none) :
    execRequest s r freshSid now jr callRes
      = (s, ReqResp.clientError 400
          (if r.ctJson then "Invalid JSON" else "Unsupported content type")) := by
  rcases hc : r.ctJson with _ | _
  · simp [execRequest, hm, hp, hc]
  · simp [execRequest, hm, hp, hc]

/-- Witness for C8: a concrete malformed-JSON POST bounced with 400 and
an untouched server state. -/
theorem claim8_witness :
    execRequest ⟨SMState.mk [] [], initStore Nat 100 1000⟩
        ⟨"POST", true, none, some "sess"⟩ "fresh" 0 true (Except.ok 7)
      = (⟨SMState.mk [] [], initStore Nat 100 1000⟩,
         ReqResp.clientError 400 "Invalid JSON") := by
  have h := claim8_malformed_json ⟨SMState.mk [] [], initStore Nat 100 1000⟩
    ⟨"POST", true, none, some "sess"⟩ "fresh" 0 true (Except.ok 7) rfl rfl
  simpa using h
